import Mathlib

/-!
Verification development for the Numscull mock server and client library.

The Python sources embedded here:
- `src/tests/mock_server.py` — the `MockServer` dispatcher and its in-memory
  domain state (projects, notes, flows), embedded as `ServerState` and
  `handleRequest`.
- `src/mockscull/src/numscull/crypto.py` — the `EncryptedChannel` block
  stream (`send`, `recv_raw`, `recv`), embedded as `Channel`, `sendMsg`,
  `recvRaw`, `recvMsg`.

Python `dict`s (insertion-ordered, unique keys) are embedded as association
lists: update-in-place keeps the position of an existing key, a fresh key is
appended at the end, deletion removes the entry.  Bytes are `Nat` (values
0..255 in practice), byte strings are `List Nat`.  JSON payloads carried
opaquely by the server (locations, dates) are embedded as the structured
fields the handlers actually read.  Python exceptions that escape a handler
(`KeyError`) are embedded as a `none` response paired with the state as
mutated up to the point of the raise.
-/

namespace Numscull

/-- Python `d.get(k)` / `d[k]` on an insertion-ordered dict embedded as an
association list: the value at the first entry whose key is `k`. -/
def dget {α β : Type} [DecidableEq α] : List (α × β) → α → Option β
  | [], _ => none
  | (k', v) :: rest, k => if k' = k then some v else dget rest k

/-- Python `k in d`. -/
def dmem {α β : Type} [DecidableEq α] (d : List (α × β)) (k : α) : Bool :=
  (dget d k).isSome

/-- Python `d[k] = v`: replace in place if the key exists, else append. -/
def dset {α β : Type} [DecidableEq α] : List (α × β) → α → β → List (α × β)
  | [], k, v => [(k, v)]
  | (k', v') :: rest, k, v =>
    if k' = k then (k, v) :: rest else (k', v') :: dset rest k v

/-- Python `del d[k]` (the sources always guard it with `k in d`). -/
def ddel {α β : Type} [DecidableEq α] : List (α × β) → α → List (α × β)
  | [], _ => []
  | (k', v') :: rest, k => if k' = k then rest else (k', v') :: ddel rest k

/-- Python `d.values()`. -/
def vals {α β : Type} (d : List (α × β)) : List β := d.map Prod.snd

/-- ASCII fragment of the regex class `\w`: letters, digits, underscore. -/
def isWordChar (c : Char) : Bool := c.isAlpha || c.isDigit || c = '_'

/-- Scanner for `#(\w+)` with explicit fuel (one unit per position, so the
input length suffices); structural recursion keeps it kernel-computable. -/
def findTagsAux : Nat → List Char → List String
  | 0, _ => []
  | _, [] => []
  | fuel + 1, '#' :: rest =>
    let run := rest.takeWhile isWordChar
    if run.isEmpty then findTagsAux fuel rest
    else String.mk run :: findTagsAux fuel (rest.drop run.length)
  | fuel + 1, _ :: rest => findTagsAux fuel rest

/-- Leftmost non-overlapping matches of `#(\w+)` over a character list,
mirroring `re.findall(r"#(\w+)", text)` in `extract_hashtags`
(src/tests/mock_server.py line 137): at a `#`, a match needs at least one
word character and consumes the maximal run; otherwise scanning advances. -/
def findTags (l : List Char) : List String := findTagsAux l.length l

/-- Python `set(re.findall(r"#(\w+)", text))`: the deduplicated tag list
(`extract_hashtags` in src/tests/mock_server.py). -/
def extractHashtags (text : String) : List String :=
  (findTags text.data).dedup

/-- One `tags[t] += 1` step on a `defaultdict(int)` embedded as an
association list (0-valued entries never occur: a key is added at first
increment). -/
def bumpTags (acc : List (String × Nat)) (t : String) : List (String × Nat) :=
  match dget acc t with
  | some c => dset acc t (c + 1)
  | none => acc ++ [(t, 1)]

/-- The tag histogram loop shared by `notes/set`, `notes/remove` and
`notes/tag/count` (src/tests/mock_server.py lines 219-222, 242-245,
277-280): for every note, every tag extracted from its text bumps the
counter. -/
def tagHistogram (ns : List String) : List (String × Nat) :=
  ns.foldl (fun acc text => (extractHashtags text).foldl bumpTags acc) []

/-- Python `pat in s` for strings: `pat` occurs contiguously in `s`. -/
def startsList : List Char → List Char → Bool
  | [], _ => true
  | _ :: _, [] => false
  | p :: ps, c :: cs => p = c && startsList ps cs

/-- Substring test over character lists (Python `in` on `str`). -/
def hasSub (pat : List Char) : List Char → Bool
  | [] => pat.isEmpty
  | c :: rest => startsList pat (c :: rest) || hasSub pat rest

/-- Python `pat in s` on strings. -/
def strContains (s pat : String) : Bool := hasSub pat.data s.data

/-- Python `str.lower()` (ASCII fragment), kept kernel-computable by
mapping over the character list. -/
def strLower (s : String) : String := String.mk (s.data.map Char.toLower)

/-- A note/node location as the handlers read it: the URI from
`location["fileId"]["uri"]` and the line from `location["line"]`. -/
structure Location where
  uri : String
  line : Nat
deriving DecidableEq, Repr

/-- A stored note (the `full_note` dict built by `notes/set`,
src/tests/mock_server.py line 217). -/
structure Note where
  location : Location
  text : String
  author : String
  modifiedBy : String
  createdDate : String
  modifiedDate : String
  orphaned : Option Bool
deriving DecidableEq, Repr

/-- The client-supplied `note` parameter of `notes/set`; `author` and
`modifiedBy` are present in the wire payload but never read by the server.
`none` on a date means the key was absent (Python `note.get(k, now)`). -/
structure NoteInput where
  location : Location
  text : String
  author : Option String
  modifiedBy : Option String
  createdDate : Option String
  modifiedDate : Option String
  orphaned : Option Bool
deriving DecidableEq, Repr

/-- A flow info dict (src/tests/mock_server.py line 285). -/
structure FlowInfo where
  infoId : Nat
  name : String
  description : String
  author : String
  modifiedBy : String
  createdDate : String
  modifiedDate : String
deriving DecidableEq, Repr

/-- A flow node (src/tests/mock_server.py line 307). -/
structure Node where
  location : Location
  note : String
  color : String
  name : String
  inEdges : List Nat
  outEdges : List Nat
deriving DecidableEq, Repr

/-- A flow: the `info` field aliases `flow_infos[fid]` in Python (one dict,
two references); the embedding keeps both copies and updates them together
in `flow/set/info`. -/
structure Flow where
  info : FlowInfo
  nodes : List (Nat × Node)
deriving DecidableEq, Repr

/-- A node patch for `flow/set/node`: `none` means the key was absent from
the client dict, so the old value is kept (the `node.get(k, old)` merge at
src/tests/mock_server.py line 333). -/
structure NodePatch where
  location : Option Location
  note : Option String
  color : Option String
  name : Option String
  inEdges : Option (List Nat)
  outEdges : Option (List Nat)
deriving DecidableEq, Repr

/-- One project dict (src/tests/mock_server.py line 190). Notes are keyed by
`(uri, line)`, flows and per-flow node counters by flow id. -/
structure Project where
  repository : String
  ownerIdentity : String
  notes : List ((String × Nat) × Note)
  flows : List (Nat × Flow)
  flowInfos : List (Nat × FlowInfo)
  nextFlowId : Nat
  nextNodeId : List (Nat × Nat)
deriving DecidableEq, Repr

/-- The fresh project built by `control/create/project`. -/
def freshProject (repository ownerIdentity : String) : Project :=
  { repository := repository
    ownerIdentity := ownerIdentity
    notes := []
    flows := []
    flowInfos := []
    nextFlowId := 1
    nextNodeId := [] }

/-- The per-connection server state: the shared project map, the session's
active-project cursor (`self.active_project`) and the authenticated identity
recorded by `control/init` (`self.identity`). -/
structure ServerState where
  projects : List (String × Project)
  activeProject : Option String
  identity : String
deriving DecidableEq, Repr

/-- Pagination parameters; `none` fields were absent from the `page` dict
(Python `page.get("index", 0)` / `page.get("size", 100)`). -/
structure Page where
  index : Option Nat
  size : Option Nat
deriving DecidableEq, Repr

/-- Sort column accepted by the spec for `notes/search/columns`. -/
inductive OrderCol where
  | createdDate
  | modifiedDate
deriving DecidableEq, Repr

/-- Sort direction accepted by the spec for `notes/search/columns`. -/
inductive OrderDir where
  | ascending
  | descending
deriving DecidableEq, Repr

/-- Effective page index (default 0). -/
def pageIndex (p : Option Page) : Nat :=
  match p with
  | some pg => pg.index.getD 0
  | none => 0

/-- Effective page size (default 100). -/
def pageSize (p : Option Page) : Nat :=
  match p with
  | some pg => pg.size.getD 100
  | none => 100

/-- Python `notes[idx:idx + size]` for nonnegative `idx`, `size`. -/
def slicePage {α : Type} (l : List α) (idx size : Nat) : List α :=
  (l.drop idx).take size

/-- Python `max(0, (total - 1) // size) if size > 0 else 0` where the `- 1`
is on signed integers (`total = 0` gives `-1 // size = -1`, clamped to 0). -/
def maxPageOf (total size : Nat) : Nat :=
  if 0 < size then (if total = 0 then 0 else (total - 1) / size) else 0

/-- Python truthiness of an optional int parameter (`if not fid`): absent or
zero is falsy. -/
def truthyNat (o : Option Nat) : Bool :=
  match o with
  | some n => n ≠ 0
  | none => false

/-- Stable insertion into a sorted list: `a` goes before the first element
`b` with `le a b`. -/
def insertLe {α : Type} (le : α → α → Bool) (a : α) : List α → List α
  | [] => [a]
  | b :: rest => if le a b then a :: b :: rest else b :: insertLe le a rest

/-- Stable sort (embeds Python `list.sort(key=...)`). -/
def sortByLe {α : Type} (le : α → α → Bool) : List α → List α
  | [] => []
  | a :: rest => insertLe le a (sortByLe le rest)

/-- One RPC request as the dispatcher reads it: one constructor per method
string, carrying exactly the `params` fields the handler extracts.  `id` is
`msg.get("id", 0)`. -/
inductive Request where
  | controlListProject (id : Nat)
  | controlCreateProject (id : Nat) (name repository ownerIdentity : String)
  | controlChangeProject (id : Nat) (name : Option String)
  | controlRemoveProject (id : Nat) (name : Option String)
  | controlSubscribe (id : Nat) (channels : List Nat)
  | controlUnsubscribe (id : Nat) (channels : List Nat)
  | controlExit (id : Nat)
  | notesSet (id : Nat) (note : NoteInput)
  | notesForFile (id : Nat) (uri : String) (page : Option Page)
  | notesRemove (id : Nat) (location : Location)
  | notesSearch (id : Nat) (text : String) (page : Option Page)
  | notesSearchTags (id : Nat) (text : String) (page : Option Page)
  | notesSearchColumns (id : Nat) (author : Option String)
      (order : Option (OrderCol × OrderDir)) (page : Option Page)
  | notesTagCount (id : Nat)
  | flowCreate (id : Nat) (name description : String) (createdDate : Option String)
  | flowGetAll (id : Nat)
  | flowGet (id : Nat) (flowId : Option Nat)
  | flowAddNode (id : Nat) (location : Location) (flowId : Option Nat)
      (note color name : Option String) (parentId childId : Option Nat)
  | flowForkNode (id : Nat) (location : Location) (parentId : Option Nat)
      (note color name : Option String)
  | flowSetNode (id : Nat) (nodeId : Option Nat) (node : NodePatch)
  | flowRemoveNode (id : Nat) (nodeId : Option Nat)
  | flowRemove (id : Nat) (flowId : Option Nat)
  | flowSetInfo (id : Nat) (flowId : Option Nat)
      (name description modifiedDate : Option String)
  | flowLinkedTo (id : Nat)
  | flowUnlock (id : Nat) (flowId : Option Nat)
  | unknownMethod (id : Nat) (method : String)
deriving DecidableEq, Repr

/-- The request id, uniform across constructors. -/
def Request.reqId : Request → Nat
  | .controlListProject id => id
  | .controlCreateProject id _ _ _ => id
  | .controlChangeProject id _ => id
  | .controlRemoveProject id _ => id
  | .controlSubscribe id _ => id
  | .controlUnsubscribe id _ => id
  | .controlExit id => id
  | .notesSet id _ => id
  | .notesForFile id _ _ => id
  | .notesRemove id _ => id
  | .notesSearch id _ _ => id
  | .notesSearchTags id _ _ => id
  | .notesSearchColumns id _ _ _ => id
  | .notesTagCount id => id
  | .flowCreate id _ _ _ => id
  | .flowGetAll id => id
  | .flowGet id _ => id
  | .flowAddNode id _ _ _ _ _ _ _ => id
  | .flowForkNode id _ _ _ _ _ => id
  | .flowSetNode id _ _ => id
  | .flowRemoveNode id _ => id
  | .flowRemove id _ => id
  | .flowSetInfo id _ _ _ _ => id
  | .flowLinkedTo id => id
  | .flowUnlock id _ => id
  | .unknownMethod id _ => id

/-- The `result` object of a response, one constructor per shape the
dispatcher produces. -/
inductive RpcResult where
  | empty
  | error (reason : String)
  | projects (l : List (String × String × String))
  | changed (name : Option String)
  | channels (l : List Nat)
  | noteSet (note : Note) (tagCount : List (String × Nat))
  | fileNotes (uri : String) (notes : List Note) (maxPage : Nat)
  | removed (location : Location) (tagCount : List (String × Nat))
  | notesPage (notes : List Note) (maxPage : Nat)
  | tags (l : List (String × Nat))
  | flowRes (info : FlowInfo) (nodes : List (Nat × Node))
  | flowInfosRes (l : List FlowInfo)
  | nodeRef (flowId nodeId : Nat)
  | flowRemoved (flowId : Option Nat)
  | infoRes (info : Option FlowInfo)
  | flowIds (l : List Nat)
  | unlocked (flowId : Option Nat)
deriving DecidableEq, Repr

/-- A dispatcher response: `{id, method, result}`. -/
structure Response where
  id : Nat
  method : String
  result : RpcResult
deriving DecidableEq, Repr

/-- The guard at src/tests/mock_server.py line 207:
`not self.active_project or self.active_project not in self.projects`
(`None` and the empty string are falsy). -/
def noActive (st : ServerState) : Bool :=
  match st.activeProject with
  | none => true
  | some n => n = "" || !dmem st.projects n

/-- First key of the flows dict: `next(iter(proj["flows"].keys()), None)`. -/
def firstFlowId (flows : List (Nat × Flow)) : Option Nat :=
  flows.head?.map Prod.fst

/-- First flow whose nodes contain the given node id, in dict order
(the scans in `flow/fork/node`, `flow/set/node`, `flow/remove/node`). -/
def findFlowWithNode (flows : List (Nat × Flow)) (nid : Option Nat) :
    Option (Nat × Flow) :=
  match nid with
  | none => none
  | some n => flows.find? (fun kv => dmem kv.2.nodes n)

/-- Replace the active project's entry in the state. -/
def commitProj (st : ServerState) (pname : String) (proj : Project) :
    ServerState :=
  { st with projects := dset st.projects pname proj }

/-- The project-requiring part of `MockServer._handle_request`
(src/tests/mock_server.py lines 209-358), reached only when the active
project check passed; `now` is the wall-clock ISO timestamp.  A `none`
response embeds an uncaught Python `KeyError` (the session thread dies);
the paired state carries the mutations made before the raise. -/
def handleActive (now : String) (st : ServerState) (pname : String)
    (proj : Project) (req : Request) : ServerState × Option Response :=
  match req with
  | .notesSet id n =>
    let key := (n.location.uri, n.location.line)
    let full : Note :=
      { location := n.location
        text := n.text
        author := st.identity
        modifiedBy := st.identity
        createdDate := n.createdDate.getD now
        modifiedDate := n.modifiedDate.getD now
        orphaned := n.orphaned }
    let proj1 := { proj with notes := dset proj.notes key full }
    (commitProj st pname proj1,
     some ⟨id, "notes/set", .noteSet full (tagHistogram ((vals proj1.notes).map Note.text))⟩)
  | .notesForFile id uri page =>
    let ns := (proj.notes.filter (fun kv => kv.1.1 = uri)).map Prod.snd
    let sorted := sortByLe (fun a b => a.location.line ≤ b.location.line) ns
    (st, some ⟨id, "notes/for/file",
      .fileNotes uri (slicePage sorted (pageIndex page) (pageSize page))
        (maxPageOf sorted.length (pageSize page))⟩)
  | .notesRemove id loc =>
    let key := (loc.uri, loc.line)
    let proj1 :=
      if dmem proj.notes key then { proj with notes := ddel proj.notes key }
      else proj
    (commitProj st pname proj1,
     some ⟨id, "notes/remove", .removed loc (tagHistogram ((vals proj1.notes).map Note.text))⟩)
  | .notesSearch id text page =>
    let q := strLower text
    let ns := (vals proj.notes).filter (fun n => strContains (strLower n.text) q)
    (st, some ⟨id, "notes/search",
      .notesPage (slicePage ns (pageIndex page) (pageSize page))
        (maxPageOf ns.length (pageSize page))⟩)
  | .notesSearchTags id text page =>
    let q := strLower text
    let ns := (vals proj.notes).filter (fun n => (extractHashtags n.text).contains q)
    (st, some ⟨id, "notes/search/tags",
      .notesPage (slicePage ns (pageIndex page) (pageSize page))
        (maxPageOf ns.length (pageSize page))⟩)
  | .notesSearchColumns id author _order page =>
    let ns0 := vals proj.notes
    let ns :=
      match author with
      | some a => if a = "" then ns0 else ns0.filter (fun n => n.author = a)
      | none => ns0
    (st, some ⟨id, "notes/search/columns",
      .notesPage (slicePage ns (pageIndex page) (pageSize page))
        (maxPageOf ns.length (pageSize page))⟩)
  | .notesTagCount id =>
    (st, some ⟨id, "notes/tag/count", .tags (tagHistogram ((vals proj.notes).map Note.text))⟩)
  | .flowCreate id name description createdDate =>
    let fid := proj.nextFlowId
    let info : FlowInfo :=
      { infoId := fid
        name := name
        description := description
        author := st.identity
        modifiedBy := st.identity
        createdDate := createdDate.getD now
        modifiedDate := now }
    let fl : Flow := { info := info, nodes := [] }
    let proj1 :=
      { proj with
        nextFlowId := fid + 1
        flowInfos := dset proj.flowInfos fid info
        flows := dset proj.flows fid fl
        nextNodeId := dset proj.nextNodeId fid 1 }
    (commitProj st pname proj1, some ⟨id, "flow/create", .flowRes info []⟩)
  | .flowGetAll id =>
    (st, some ⟨id, "flow/get/all", .flowInfosRes (vals proj.flowInfos)⟩)
  | .flowGet id flowId =>
    match flowId with
    | some f =>
      match dget proj.flows f with
      | some fl => (st, some ⟨id, "flow/get", .flowRes fl.info fl.nodes⟩)
      | none => (st, some ⟨id, "control/error", .error "flow not found"⟩)
    | none => (st, some ⟨id, "control/error", .error "flow not found"⟩)
  | .flowAddNode id loc flowId note color name parentId childId =>
    match (if truthyNat flowId then flowId else firstFlowId proj.flows) with
    | none => (st, some ⟨id, "control/error", .error "no flow"⟩)
    | some fid =>
      if fid = 0 then (st, some ⟨id, "control/error", .error "no flow"⟩)
      else
        match dget proj.nextNodeId fid with
        | none => (st, none)
        | some nid =>
          let proj1 := { proj with nextNodeId := dset proj.nextNodeId fid (nid + 1) }
          match dget proj1.flows fid with
          | none => (commitProj st pname proj1, none)
          | some fl =>
            let base : Node :=
              { location := loc
                note := note.getD ""
                color := color.getD "#888"
                outEdges := []
                inEdges := []
                name := name.getD "" }
            let withParent :=
              if truthyNat parentId then
                let p := parentId.getD 0
                let node1 := { base with inEdges := [p] }
                match dget fl.nodes p with
                | some pn =>
                  let pn1 := { pn with outEdges := pn.outEdges ++ [nid] }
                  (node1, { fl with nodes := dset fl.nodes p pn1 })
                | none => (node1, fl)
              else (base, fl)
            let node2 :=
              if truthyNat childId then
                { withParent.1 with outEdges := [childId.getD 0] }
              else withParent.1
            let fl2 := { withParent.2 with nodes := dset withParent.2.nodes nid node2 }
            (commitProj st pname { proj1 with flows := dset proj1.flows fid fl2 },
             some ⟨id, "flow/add/node", .nodeRef fid nid⟩)
  | .flowForkNode id loc parentId note color name =>
    match findFlowWithNode proj.flows parentId with
    | none => (st, some ⟨id, "control/error", .error "parent not found"⟩)
    | some (fid, fl) =>
      match dget proj.nextNodeId fid with
      | none => (st, none)
      | some nid =>
        let proj1 := { proj with nextNodeId := dset proj.nextNodeId fid (nid + 1) }
        let p := parentId.getD 0
        let node : Node :=
          { location := loc
            note := note.getD ""
            color := color.getD "#888"
            outEdges := []
            inEdges := [p]
            name := name.getD "" }
        match dget fl.nodes p with
        | none => (commitProj st pname proj1, none)
        | some pn =>
          let pn1 := { pn with outEdges := pn.outEdges ++ [nid] }
          let fl1 := { fl with nodes := dset fl.nodes p pn1 }
          let fl2 := { fl1 with nodes := dset fl1.nodes nid node }
          (commitProj st pname { proj1 with flows := dset proj1.flows fid fl2 },
           some ⟨id, "flow/fork/node", .nodeRef fid nid⟩)
  | .flowSetNode id nodeId patch =>
    match findFlowWithNode proj.flows nodeId with
    | none => (st, some ⟨id, "control/error", .error "node not found"⟩)
    | some (fid, fl) =>
      let nid := nodeId.getD 0
      match dget fl.nodes nid with
      | none => (st, none)
      | some old =>
        let merged : Node :=
          { location := patch.location.getD old.location
            note := patch.note.getD old.note
            color := patch.color.getD old.color
            name := patch.name.getD old.name
            outEdges := patch.outEdges.getD old.outEdges
            inEdges := patch.inEdges.getD old.inEdges }
        let fl1 := { fl with nodes := dset fl.nodes nid merged }
        (commitProj st pname { proj with flows := dset proj.flows fid fl1 },
         some ⟨id, "flow/set/node", .nodeRef fid nid⟩)
  | .flowRemoveNode id nodeId =>
    match findFlowWithNode proj.flows nodeId with
    | none => (st, some ⟨id, "control/error", .error "node not found"⟩)
    | some (fid, fl) =>
      let nid := nodeId.getD 0
      let fl1 := { fl with nodes := ddel fl.nodes nid }
      (commitProj st pname { proj with flows := dset proj.flows fid fl1 },
       some ⟨id, "flow/remove/node", .nodeRef fid nid⟩)
  | .flowRemove id flowId =>
    match flowId with
    | some f =>
      if dmem proj.flows f then
        let proj1 := { proj with flows := ddel proj.flows f }
        if dmem proj1.flowInfos f then
          (commitProj st pname { proj1 with flowInfos := ddel proj1.flowInfos f },
           some ⟨id, "flow/remove", .flowRemoved flowId⟩)
        else (commitProj st pname proj1, none)
      else (st, some ⟨id, "flow/remove", .flowRemoved flowId⟩)
    | none => (st, some ⟨id, "flow/remove", .flowRemoved flowId⟩)
  | .flowSetInfo id flowId name description modifiedDate =>
    match flowId with
    | some f =>
      match dget proj.flowInfos f with
      | some info =>
        let info1 :=
          { info with
            name := name.getD ""
            description := description.getD ""
            modifiedDate := modifiedDate.getD now
            modifiedBy := st.identity }
        let flows1 :=
          match dget proj.flows f with
          | some fl => dset proj.flows f { fl with info := info1 }
          | none => proj.flows
        (commitProj st pname
          { proj with flowInfos := dset proj.flowInfos f info1, flows := flows1 },
         some ⟨id, "flow/set/info", .infoRes (some info1)⟩)
      | none => (st, some ⟨id, "flow/set/info", .infoRes none⟩)
    | none => (st, some ⟨id, "flow/set/info", .infoRes none⟩)
  | .flowLinkedTo id => (st, some ⟨id, "flow/linked/to", .flowIds []⟩)
  | .flowUnlock id flowId => (st, some ⟨id, "flow/unlock", .unlocked flowId⟩)
  | .unknownMethod id m =>
    (st, some ⟨id, "control/error", .error ("unknown method: " ++ m)⟩)
  -- the seven control methods below are handled before the active-project
  -- check and never reach this function
  | .controlListProject id => (st, some ⟨id, "control/error", .error "unreachable"⟩)
  | .controlCreateProject id _ _ _ => (st, some ⟨id, "control/error", .error "unreachable"⟩)
  | .controlChangeProject id _ => (st, some ⟨id, "control/error", .error "unreachable"⟩)
  | .controlRemoveProject id _ => (st, some ⟨id, "control/error", .error "unreachable"⟩)
  | .controlSubscribe id _ => (st, some ⟨id, "control/error", .error "unreachable"⟩)
  | .controlUnsubscribe id _ => (st, some ⟨id, "control/error", .error "unreachable"⟩)
  | .controlExit id => (st, some ⟨id, "control/error", .error "unreachable"⟩)

/-- The dispatcher `MockServer._handle_request` (src/tests/mock_server.py
lines 181-358): the seven control methods handled up front, then the
active-project guard, then the project-scoped handlers. -/
def handleRequest (now : String) (st : ServerState) (req : Request) :
    ServerState × Option Response :=
  match req with
  | .controlListProject id =>
    (st, some ⟨id, "control/list/project",
      .projects (st.projects.map (fun kv => (kv.1, kv.2.repository, kv.2.ownerIdentity)))⟩)
  | .controlCreateProject id name repository ownerIdentity =>
    ({ st with projects := dset st.projects name (freshProject repository ownerIdentity) },
     some ⟨id, "control/create/project", .empty⟩)
  | .controlChangeProject id name =>
    ({ st with activeProject := name },
     some ⟨id, "control/change/project", .changed name⟩)
  | .controlRemoveProject id name =>
    let projects1 :=
      match name with
      | some n => if dmem st.projects n then ddel st.projects n else st.projects
      | none => st.projects
    let active1 := if st.activeProject = name then none else st.activeProject
    ({ st with projects := projects1, activeProject := active1 },
     some ⟨id, "control/remove/project", .empty⟩)
  | .controlSubscribe id channels =>
    (st, some ⟨id, "control/subscribe", .channels channels⟩)
  | .controlUnsubscribe id channels =>
    (st, some ⟨id, "control/unsubscribe", .channels channels⟩)
  | .controlExit id => (st, some ⟨id, "control/exit", .empty⟩)
  | other =>
    if noActive st then
      (st, some ⟨other.reqId, "control/error", .error "no active project"⟩)
    else
      match st.activeProject with
      | none => (st, none)
      | some pname =>
        match dget st.projects pname with
        | none => (st, none)
        | some proj => handleActive now st pname proj other

/-! Encrypted channel (src/mockscull/src/numscull/crypto.py). -/

/-- Little-endian byte decomposition: `k` bytes of `x`. -/
def leBytes : Nat → Nat → List Nat
  | 0, _ => []
  | k + 1, x => x % 256 :: leBytes k (x / 256)

/-- The 24-byte counter nonce: `struct.pack("<Q", counter) + b"\x00" * 16`
(`counter_nonce` in crypto.py). -/
def counterNonce (c : Nat) : List Nat := leBytes 8 c ++ List.replicate 16 0

/-- Parse the first two bytes as a little-endian u16
(`struct.unpack("<H", block[:2])`). -/
def parseU16 : List Nat → Nat
  | a :: b :: _ => a + 256 * b
  | [a] => a
  | [] => 0

/-- The `k`-digit zero-padded ASCII decimal of `n`, most significant digit
first (Python `f"{n:0>10}"` for `k = 10` and `n < 10^10`). -/
def decPad : Nat → Nat → List Nat
  | 0, _ => []
  | k + 1, n => decPad k (n / 10) ++ [48 + n % 10]

/-- Parse an ASCII decimal digit string (`int(header.decode("ascii"))`). -/
def parseDec (l : List Nat) : Nat :=
  l.foldl (fun a d => a * 10 + (d - 48)) 0

/-- The frame `LEN10 ‖ PAYLOAD` built by `pack_plaintext_bytes`
(transport.py): ten ASCII decimal digits of the payload length, then the
payload. -/
def packPlaintextBytes (payload : List Nat) : List Nat :=
  decPad 10 payload.length ++ payload

/-- Modelled from the spec: the NaCl `crypto_box` sealed ciphertext.  The
NaCl library is external to the repository, so the Box is idealized: the
ciphertext records the plaintext together with the Diffie-Hellman shared key
and the nonce, and opening checks both.  `crypto_scalarmult_base` is the
identity on `Nat`, so the shared key of `(sk, pk)` is the product `sk * pk`
and DH symmetry is commutativity of multiplication. -/
structure BoxCiphertext where
  data : List Nat
  key : Nat
  nonce : List Nat
deriving DecidableEq, Repr

/-- Modelled from the spec: NaCl `crypto_box(message, nonce, pk, sk)`. -/
def cryptoBox (m : List Nat) (n : List Nat) (pk sk : Nat) : BoxCiphertext :=
  { data := m, key := sk * pk, nonce := n }

/-- Modelled from the spec: NaCl `crypto_box_open(ct, nonce, pk, sk)`;
`none` is the raised `CryptoError`. -/
def cryptoBoxOpen (c : BoxCiphertext) (n : List Nat) (pk sk : Nat) :
    Option (List Nat) :=
  if c.key = sk * pk ∧ c.nonce = n then some c.data else none

/-- The state of an `EncryptedChannel` (crypto.py lines 44-61), minus the
socket: the four key fields and the two counters, both starting at 1. -/
structure Channel where
  oursRecvSk : Nat
  oursSendSk : Nat
  theirsRecvPk : Nat
  theirsSendPk : Nat
  sendNonce : Nat
  recvNonce : Nat
deriving DecidableEq, Repr

/-- Build and seal one 512-byte block from a framed region of at most 510
bytes (the block layout of `EncryptedChannel.send`, crypto.py lines 69-78):
u16 length, the framed bytes, then random padding (`pad i` is the i-th
padding byte from `os.urandom`). -/
def sealBlock (ch : Channel) (framed : List Nat) (pad : Nat → Nat) :
    Channel × BoxCiphertext :=
  let block :=
    leBytes 2 framed.length ++ framed ++ (List.range (510 - framed.length)).map pad
  ({ ch with sendNonce := ch.sendNonce + 1 },
   cryptoBox block (counterNonce ch.sendNonce) ch.theirsSendPk ch.oursSendSk)

/-- The `EncryptedChannel.send` of crypto.py (lines 63-79): frame the JSON
bytes, refuse anything over `BLOCK_SIZE - 2 = 510` framed bytes, otherwise
seal a single block under the send counter. -/
def sendMsg (ch : Channel) (jsonBytes : List Nat) (pad : Nat → Nat) :
    Except String (Channel × BoxCiphertext) :=
  let framed := packPlaintextBytes jsonBytes
  if 510 < framed.length then .error "Message too large"
  else .ok (sealBlock ch framed pad)

/-- The `EncryptedChannel.recv_raw` of crypto.py (lines 81-89): open one
block under the recv counter and return its framed region
`block[2 : 2 + msg_len]`; `none` is a fatal crypto failure. -/
def recvRaw (ch : Channel) (ct : BoxCiphertext) :
    Option (Channel × List Nat) :=
  let nonce := counterNonce ch.recvNonce
  let ch1 := { ch with recvNonce := ch.recvNonce + 1 }
  match cryptoBoxOpen ct nonce ch.theirsRecvPk ch.oursRecvSk with
  | none => none
  | some block => some (ch1, (block.drop 2).take (parseU16 (block.take 2)))

/-- The reassembly loop of `EncryptedChannel.recv` (crypto.py lines 98-100):
while fewer than `jsonLen` bytes are gathered, open another block from the
wire and append its framed region; `none` is a short read or crypto
failure. -/
def recvLoop (ch : Channel) (wire : List BoxCiphertext) (acc : List Nat)
    (jsonLen : Nat) : Option (Channel × List Nat) :=
  if jsonLen ≤ acc.length then some (ch, acc.take jsonLen)
  else
    match wire with
    | [] => none
    | ct :: rest =>
      match recvRaw ch ct with
      | none => none
      | some (ch1, chunk) => recvLoop ch1 rest (acc ++ chunk) jsonLen

/-- The `EncryptedChannel.recv` of crypto.py (lines 91-102) over a wire of
sealed blocks: open the first block, read the 10-digit framing header for
the total JSON length, then gather continuation blocks until satisfied. -/
def recvMsg (ch : Channel) (wire : List BoxCiphertext) :
    Option (Channel × List Nat) :=
  match wire with
  | [] => none
  | ct :: rest =>
    match recvRaw ch ct with
    | none => none
    | some (ch1, data) =>
      let jsonLen := parseDec (data.take 10)
      recvLoop ch1 rest ((data.drop 10).take jsonLen) jsonLen

/-- Split a framed region into the successive block contents of a
multi-block message: full 510-byte chunks, the last chunk shorter. -/
def chunks510 (l : List Nat) : List (List Nat) :=
  if l.length ≤ 510 then [l]
  else l.take 510 :: chunks510 (l.drop 510)
termination_by l.length
decreasing_by
  simp only [List.length_drop]
  omega

/-- Seal a list of framed chunks under successive send counters. -/
def sealChunks (ch : Channel) (chunks : List (List Nat)) (pad : Nat → Nat) :
    Channel × List BoxCiphertext :=
  match chunks with
  | [] => (ch, [])
  | c :: rest =>
    let s1 := sealBlock ch c pad
    let s2 := sealChunks s1.1 rest pad
    (s2.1, s1.2 :: s2.2)

/-- Modelled from the spec: the multi-block sending rule of section 4.2,
which no sender in the repository implements (`EncryptedChannel.send`
raises `Message too large` instead).  The framed encoding is split into
510-byte chunks; each block carries its u16 chunk length, the chunk, and
padding; the first block's framing header names the total JSON length. -/
def sendMulti (ch : Channel) (jsonBytes : List Nat) (pad : Nat → Nat) :
    Channel × List BoxCiphertext :=
  sealChunks ch (chunks510 (packPlaintextBytes jsonBytes)) pad

/-! Spec-side definitions used for refinement comparison, and invariants. -/

/-- Follows the spec's words for the tag law of `notes/tag/count`
(refinement comparison for the histogram produced by the code): the tag set
is the set of lowercased `\w+` runs after `#`, with per-note counts. -/
def tagHistogramLowerSpec (texts : List String) : List (String × Nat) :=
  tagHistogram (texts.map strLower)

/-- Lexicographic order on character lists (code-point comparison), kept
kernel-computable for the spec-side sort. -/
def charListLe : List Char → List Char → Bool
  | [], _ => true
  | _ :: _, [] => false
  | a :: as, b :: bs => if a = b then charListLe as bs else decide (a < b)

/-- Lexicographic order on strings. -/
def strLe (s t : String) : Bool := charListLe s.data t.data

/-- Follows the spec's words for `notes/search/columns` (refinement
comparison): filter by author equality, stable-sort by the order column and
direction, then return the `index`-th page of `size` notes with
`maxPage = max(0, ceil(total/size) - 1)`. -/
def notesSearchColumnsSpec (ns0 : List Note) (author : Option String)
    (order : Option (OrderCol × OrderDir)) (page : Option Page) :
    List Note × Nat :=
  let ns1 :=
    match author with
    | some a => if a = "" then ns0 else ns0.filter (fun n => n.author = a)
    | none => ns0
  let key : Note → String :=
    match order with
    | some (.createdDate, _) => Note.createdDate
    | some (.modifiedDate, _) => Note.modifiedDate
    | none => Note.createdDate
  let ns2 :=
    match order with
    | some (_, .ascending) => sortByLe (fun a b => strLe (key a) (key b)) ns1
    | some (_, .descending) => sortByLe (fun a b => strLe (key b) (key a)) ns1
    | none => ns1
  let idx := pageIndex page
  let size := pageSize page
  let maxPage := if size = 0 then 0 else (ns1.length + size - 1) / size - 1
  (ns2.drop (idx * size) |>.take size, maxPage)

/-- The spec's `maxPage` formula `max(0, ceil(total/size) - 1)` over `Nat`
(truncated subtraction supplies the clamp at 0). -/
def specMaxPage (total size : Nat) : Nat :=
  if size = 0 then 0 else (total + size - 1) / size - 1

/-- Edge-closure of one node's out-edges against a node map. -/
def nodeEdgesOk (nodes : List (Nat × Node)) (nd : Node) : Bool :=
  nd.outEdges.all (fun v => dmem nodes v)

/-- Edge-closure of one flow: every out-edge names a node of the flow. -/
def flowEdgesOk (fl : Flow) : Bool :=
  fl.nodes.all (fun kv => nodeEdgesOk fl.nodes kv.2)

/-- Edge-closure of one project. -/
def projEdgesOk (p : Project) : Bool :=
  p.flows.all (fun kv => flowEdgesOk kv.2)

/-- The claimed invariant: every out-edge in every flow of every project
names a node existing in the same flow. -/
def edgeOk (st : ServerState) : Bool :=
  st.projects.all (fun kv => projEdgesOk kv.2)

/-- The claimed cursor invariant: the active-project cursor is unset or
names an existing project. -/
def cursorOk (st : ServerState) : Bool :=
  match st.activeProject with
  | none => true
  | some n => dmem st.projects n

/-- Requests that preserve edge-closure unconditionally: everything except a
`flow/add/node` carrying a truthy `childId` (recorded unchecked), a
`flow/set/node` overwriting `outEdges` (stored verbatim), and a
`flow/remove/node` whose target is still referenced by another node of its
flow. -/
def stepSafe (st : ServerState) (req : Request) : Bool :=
  match req with
  | .flowAddNode _ _ _ _ _ _ _ childId => !truthyNat childId
  | .flowSetNode _ _ patch => patch.outEdges.isNone
  | .flowRemoveNode _ nodeId =>
    match nodeId with
    | none => true
    | some nid =>
      st.projects.all (fun pkv =>
        pkv.2.flows.all (fun fkv =>
          fkv.2.nodes.all (fun nkv => !nkv.2.outEdges.contains nid)))
  | _ => true

/-- Guard under which `control/change/project` preserves the cursor
invariant: the requested name exists (or is absent, unsetting the cursor). -/
def changeGuard (st : ServerState) (req : Request) : Bool :=
  match req with
  | .controlChangeProject _ name =>
    match name with
    | none => true
    | some n => dmem st.projects n
  | _ => true

/-- The seven control methods handled before the active-project check
(src/tests/mock_server.py lines 185-206). -/
def isEarlyControl (req : Request) : Bool :=
  match req with
  | .controlListProject _ => true
  | .controlCreateProject _ _ _ _ => true
  | .controlChangeProject _ _ => true
  | .controlRemoveProject _ _ => true
  | .controlSubscribe _ _ => true
  | .controlUnsubscribe _ _ => true
  | .controlExit _ => true
  | _ => false

/-- Number of live notes whose text carries the tag `t`. -/
def taggedCount (texts : List String) (t : String) : Nat :=
  texts.countP (fun s => (extractHashtags s).contains t)

/-- Fold a request sequence through the dispatcher, keeping the states. -/
def runReqs (now : String) (st : ServerState) (l : List Request) : ServerState :=
  l.foldl (fun s r => (handleRequest now s r).1) st

/-- The `full_note` dict `notes/set` builds (src/tests/mock_server.py line
217), with author and modifier stamped from the session identity. -/
def serverNote (identity now : String) (n : NoteInput) : Note :=
  { location := n.location
    text := n.text
    author := identity
    modifiedBy := identity
    createdDate := n.createdDate.getD now
    modifiedDate := n.modifiedDate.getD now
    orphaned := n.orphaned }

/-! Concrete fixtures for witnesses and counterexamples. -/

/-- A sample stored note. -/
def egNote : Note :=
  { location := { uri := "file:///a.py", line := 10 }
    text := "todo #alpha #beta"
    author := "alice"
    modifiedBy := "alice"
    createdDate := "2020"
    modifiedDate := "2020"
    orphaned := none }

/-- A sample client payload for `notes/set` carrying a bogus author. -/
def egNoteInput : NoteInput :=
  { location := { uri := "file:///a.py", line := 10 }
    text := "todo #alpha"
    author := some "bogus"
    modifiedBy := some "mallory"
    createdDate := some "2020"
    modifiedDate := none
    orphaned := none }

/-- A project holding the sample note. -/
def egProject : Project :=
  { repository := "/tmp/p"
    ownerIdentity := "alice"
    notes := [(("file:///a.py", 10), egNote)]
    flows := []
    flowInfos := []
    nextFlowId := 1
    nextNodeId := [] }

/-- A session state with project `p` active and identity `alice`. -/
def egState : ServerState :=
  { projects := [("p", egProject)], activeProject := some "p", identity := "alice" }

/-- The empty session state right after `control/init` as `alice`. -/
def egEmptyState : ServerState :=
  { projects := [], activeProject := none, identity := "alice" }

/-- A note with an uppercase hashtag. -/
def egNoteUpper : Note :=
  { location := { uri := "file:///u.py", line := 1 }
    text := "x #Alpha"
    author := "alice"
    modifiedBy := "alice"
    createdDate := "2020"
    modifiedDate := "2020"
    orphaned := none }

/-- A session whose active project holds only the uppercase-tag note. -/
def egStateUpper : ServerState :=
  { projects := [("p",
      { repository := ""
        ownerIdentity := "alice"
        notes := [(("file:///u.py", 1), egNoteUpper)]
        flows := []
        flowInfos := []
        nextFlowId := 1
        nextNodeId := [] })]
    activeProject := some "p"
    identity := "alice" }

/-- Three sample notes with increasing creation dates. -/
def egNote1 : Note :=
  { location := { uri := "file:///a.py", line := 1 }
    text := "n1"
    author := "alice"
    modifiedBy := "alice"
    createdDate := "2020"
    modifiedDate := "2020"
    orphaned := none }

/-- Second sample note. -/
def egNote2 : Note :=
  { location := { uri := "file:///a.py", line := 2 }
    text := "n2"
    author := "alice"
    modifiedBy := "alice"
    createdDate := "2021"
    modifiedDate := "2021"
    orphaned := none }

/-- Third sample note. -/
def egNote3 : Note :=
  { location := { uri := "file:///a.py", line := 3 }
    text := "n3"
    author := "alice"
    modifiedBy := "alice"
    createdDate := "2022"
    modifiedDate := "2022"
    orphaned := none }

/-- A project holding the three dated notes. -/
def egProject3 : Project :=
  { repository := ""
    ownerIdentity := "alice"
    notes := [(("file:///a.py", 1), egNote1),
              (("file:///a.py", 2), egNote2),
              (("file:///a.py", 3), egNote3)]
    flows := []
    flowInfos := []
    nextFlowId := 1
    nextNodeId := [] }

/-- A session whose active project holds the three dated notes. -/
def egState3 : ServerState :=
  { projects := [("p", egProject3)]
    activeProject := some "p"
    identity := "alice" }

/-- The request sequence driving the edge-invariant counterexample: create
and select a project, create flow 1, then add a node whose `childId` names
the nonexistent node 5. -/
def egEdgeSeq : List Request :=
  [.controlCreateProject 1 "p" "/tmp/p" "alice",
   .controlChangeProject 2 (some "p"),
   .flowCreate 3 "F" "" none,
   .flowAddNode 4 { uri := "file:///a.py", line := 1 } none none none none none (some 5)]

/-! Dictionary lemmas. -/

theorem dget_dset_self {α β : Type} [DecidableEq α] (d : List (α × β)) (k : α) (v : β) :
    dget (dset d k v) k = some v := by
  induction d with
  | nil => simp [dget, dset]
  | cons hd tl ih =>
    obtain ⟨k', v'⟩ := hd
    by_cases h : k' = k
    · simp [dset, h, dget]
    · simp [dset, h, dget, ih]

theorem dget_dset_ne {α β : Type} [DecidableEq α] (d : List (α × β)) (k x : α) (v : β)
    (h : x ≠ k) : dget (dset d k v) x = dget d x := by
  induction d with
  | nil => simp [dget, dset, Ne.symm h]
  | cons hd tl ih =>
    obtain ⟨k', v'⟩ := hd
    by_cases hk : k' = k
    · subst hk
      simp [dset, dget, Ne.symm h]
    · simp only [dset, if_neg hk, dget]
      by_cases hx : k' = x
      · simp [hx]
      · simp [hx, ih]

theorem dmem_dset_self {α β : Type} [DecidableEq α] (d : List (α × β)) (k : α) (v : β) :
    dmem (dset d k v) k = true := by
  simp [dmem, dget_dset_self]

theorem dmem_dset_of {α β : Type} [DecidableEq α] {d : List (α × β)} {x : α} (k : α) (v : β)
    (h : dmem d x = true) : dmem (dset d k v) x = true := by
  by_cases hx : x = k
  · subst hx
    exact dmem_dset_self d x v
  · simpa [dmem, dget_dset_ne d k x v hx] using h

theorem dget_ddel_ne {α β : Type} [DecidableEq α] (d : List (α × β)) (k x : α)
    (h : x ≠ k) : dget (ddel d k) x = dget d x := by
  induction d with
  | nil => simp [ddel]
  | cons hd tl ih =>
    obtain ⟨k', v'⟩ := hd
    by_cases hk : k' = k
    · subst hk
      simp [ddel, dget, Ne.symm h]
    · simp only [ddel, if_neg hk, dget]
      by_cases hx : k' = x
      · simp [hx]
      · simp [hx, ih]

theorem dget_notin {α β : Type} [DecidableEq α] (d : List (α × β)) (k : α)
    (h : k ∉ d.map Prod.fst) : dget d k = none := by
  induction d with
  | nil => simp [dget]
  | cons hd tl ih =>
    obtain ⟨k', v'⟩ := hd
    simp only [List.map_cons, List.mem_cons] at h
    push_neg at h
    simp [dget, Ne.symm h.1, ih h.2]

theorem dget_ddel_self {α β : Type} [DecidableEq α] (d : List (α × β)) (k : α)
    (h : (d.map Prod.fst).Nodup) : dget (ddel d k) k = none := by
  induction d with
  | nil => simp [ddel, dget]
  | cons hd tl ih =>
    obtain ⟨k', v'⟩ := hd
    simp only [List.map_cons, List.nodup_cons] at h
    by_cases hk : k' = k
    · subst hk
      simp only [ddel, if_pos rfl]
      exact dget_notin tl k' h.1
    · simp [ddel, hk, dget, ih h.2]

theorem all_dset {α β : Type} [DecidableEq α] (d : List (α × β)) (k : α) (v : β)
    (f : α × β → Bool) (hd : d.all f = true) (hv : f (k, v) = true) :
    (dset d k v).all f = true := by
  induction d with
  | nil => simpa [dset]
  | cons hd0 tl ih =>
    obtain ⟨k', v'⟩ := hd0
    simp only [List.all_cons, Bool.and_eq_true] at hd
    by_cases hk : k' = k
    · simp [dset, hk, List.all_cons, hv, hd.2]
    · simp [dset, hk, List.all_cons, hd.1, ih hd.2]

theorem all_ddel {α β : Type} [DecidableEq α] (d : List (α × β)) (k : α)
    (f : α × β → Bool) (hd : d.all f = true) : (ddel d k).all f = true := by
  induction d with
  | nil => simp [ddel]
  | cons hd0 tl ih =>
    obtain ⟨k', v'⟩ := hd0
    simp only [List.all_cons, Bool.and_eq_true] at hd
    by_cases hk : k' = k
    · simp [ddel, hk, hd.2]
    · simp [ddel, hk, List.all_cons, hd.1, ih hd.2]

theorem dget_all {α β : Type} [DecidableEq α] {d : List (α × β)} {k : α} {v : β}
    {f : α × β → Bool} (hd : d.all f = true) (hg : dget d k = some v) :
    f (k, v) = true := by
  induction d with
  | nil => simp [dget] at hg
  | cons hd0 tl ih =>
    obtain ⟨k', v'⟩ := hd0
    simp only [List.all_cons, Bool.and_eq_true] at hd
    by_cases hk : k' = k
    · rw [dget, if_pos hk] at hg
      injection hg with h2
      subst h2
      subst hk
      exact hd.1
    · rw [dget, if_neg hk] at hg
      exact ih hd.2 hg

theorem dset_dset_self {α β : Type} [DecidableEq α] (d : List (α × β)) (k : α) (v w : β) :
    dset (dset d k v) k w = dset d k w := by
  induction d with
  | nil => simp [dset]
  | cons hd tl ih =>
    obtain ⟨k', v'⟩ := hd
    by_cases hk : k' = k
    · simp [dset, hk]
    · simp [dset, hk, ih]

theorem dmem_ddel_ne {α β : Type} [DecidableEq α] (d : List (α × β)) (k x : α)
    (h : x ≠ k) : dmem (ddel d k) x = dmem d x := by
  simp [dmem, dget_ddel_ne d k x h]

theorem mem_dset {α β : Type} [DecidableEq α] {d : List (α × β)} {k : α} {v : β}
    {kv : α × β} (h : kv ∈ dset d k v) : kv = (k, v) ∨ kv ∈ d := by
  induction d with
  | nil => simpa [dset] using h
  | cons hd tl ih =>
    obtain ⟨k', v'⟩ := hd
    by_cases hk : k' = k
    · simp only [dset, if_pos hk, List.mem_cons] at h
      rcases h with h | h
      · exact Or.inl h
      · exact Or.inr (List.mem_cons_of_mem _ h)
    · simp only [dset, if_neg hk, List.mem_cons] at h
      rcases h with h | h
      · exact Or.inr (by simp [h])
      · rcases ih h with h1 | h1
        · exact Or.inl h1
        · exact Or.inr (List.mem_cons_of_mem _ h1)

theorem mem_ddel {α β : Type} [DecidableEq α] {d : List (α × β)} {k : α}
    {kv : α × β} (h : kv ∈ ddel d k) : kv ∈ d := by
  induction d with
  | nil => simp [ddel] at h
  | cons hd tl ih =>
    obtain ⟨k', v'⟩ := hd
    by_cases hk : k' = k
    · simp only [ddel, if_pos hk] at h
      exact List.mem_cons_of_mem _ h
    · simp only [ddel, if_neg hk, List.mem_cons] at h
      rcases h with h | h
      · simp [h]
      · exact List.mem_cons_of_mem _ (ih h)

theorem dget_mem {α β : Type} [DecidableEq α] {d : List (α × β)} {k : α} {v : β}
    (h : dget d k = some v) : (k, v) ∈ d := by
  induction d with
  | nil => simp [dget] at h
  | cons hd tl ih =>
    obtain ⟨k', v'⟩ := hd
    by_cases hk : k' = k
    · rw [dget, if_pos hk] at h
      injection h with h2
      simp [← hk, ← h2]
    · rw [dget, if_neg hk] at h
      exact List.mem_cons_of_mem _ (ih h)

/-- The active-project guard passes when the cursor names a nonempty name
bound in the project map. -/
theorem noActive_false_of {st : ServerState} {pname : String} {proj : Project}
    (hA : st.activeProject = some pname) (hne : pname ≠ "")
    (hP : dget st.projects pname = some proj) : noActive st = false := by
  simp [noActive, hA, hne, dmem, hP]

/-! Claim theorems. -/

/-- C10: a `control/create/project` request whose name collides with an
existing project silently replaces it by a fresh empty project — notes,
flows, flow infos gone and `next_flow_id` back at 1 — and reports plain
success. -/
theorem createProject_replaces_existing (now : String) (st : ServerState) (id : Nat)
    (name repository ownerIdentity : String)
    (_h : dmem st.projects name = true) :
    ∃ st1,
      handleRequest now st (.controlCreateProject id name repository ownerIdentity) =
        (st1, some ⟨id, "control/create/project", .empty⟩) ∧
      dget st1.projects name = some (freshProject repository ownerIdentity) ∧
      (freshProject repository ownerIdentity).notes = [] ∧
      (freshProject repository ownerIdentity).flows = [] ∧
      (freshProject repository ownerIdentity).flowInfos = [] ∧
      (freshProject repository ownerIdentity).nextFlowId = 1 := by
  refine ⟨_, rfl, ?_, rfl, rfl, rfl, rfl⟩
  exact dget_dset_self _ _ _

/-- Witness for C10 at a concrete state holding project `p`. -/
theorem createProject_replaces_existing_witness :
    dmem egState.projects "p" = true ∧
    ∃ st1,
      handleRequest "t" egState (.controlCreateProject 9 "p" "r2" "o2") =
        (st1, some ⟨9, "control/create/project", .empty⟩) ∧
      dget st1.projects "p" = some (freshProject "r2" "o2") ∧
      (freshProject "r2" "o2").notes = [] ∧
      (freshProject "r2" "o2").flows = [] ∧
      (freshProject "r2" "o2").flowInfos = [] ∧
      (freshProject "r2" "o2").nextFlowId = 1 :=
  ⟨by decide, createProject_replaces_existing "t" egState 9 "p" "r2" "o2" (by decide)⟩

/-- C4 counterexample: with no active project, `control/change/project` and
`control/subscribe` answer with their own method and a success result, not
the claimed `control/error` with reason `no active project`. -/
theorem changeProject_without_active_succeeds :
    handleRequest "t" egEmptyState (.controlChangeProject 1 (some "p")) =
      ({ egEmptyState with activeProject := some "p" },
       some ⟨1, "control/change/project", .changed (some "p")⟩) ∧
    handleRequest "t" egEmptyState (.controlSubscribe 2 [1, 2]) =
      (egEmptyState, some ⟨2, "control/subscribe", .channels [1, 2]⟩) ∧
    handleRequest "t" egEmptyState (.controlUnsubscribe 3 [1]) =
      (egEmptyState, some ⟨3, "control/unsubscribe", .channels [1]⟩) ∧
    ("control/change/project" : String) ≠ "control/error" :=
  ⟨rfl, rfl, rfl, by decide⟩

/-- C4 (amended): every request other than the seven early-handled control
methods (`list/project`, `create/project`, `change/project`,
`remove/project`, `subscribe`, `unsubscribe`, `exit`) is answered with the
`no active project` error, reusing the request id and leaving the state
untouched, whenever the cursor is unset, empty, or dangling; but
`change/project`, `subscribe` and `unsubscribe` themselves succeed without
an active project. -/
theorem noActiveProject_guard (now : String) (st : ServerState) (req : Request) :
    (isEarlyControl req = false → noActive st = true →
      handleRequest now st req =
        (st, some ⟨req.reqId, "control/error", .error "no active project"⟩)) ∧
    (∀ id name, handleRequest now st (.controlChangeProject id name) =
      ({ st with activeProject := name },
       some ⟨id, "control/change/project", .changed name⟩)) ∧
    (∀ id ch, handleRequest now st (.controlSubscribe id ch) =
      (st, some ⟨id, "control/subscribe", .channels ch⟩)) ∧
    (∀ id ch, handleRequest now st (.controlUnsubscribe id ch) =
      (st, some ⟨id, "control/unsubscribe", .channels ch⟩)) := by
  refine ⟨?_, fun id name => rfl, fun id ch => rfl, fun id ch => rfl⟩
  intro hEarly hNo
  cases req <;> simp_all [isEarlyControl, handleRequest, Request.reqId]

/-- Witness for C4's amended theorem: a `notes/tag/count` with no active
project gets the error response. -/
theorem noActiveProject_guard_witness :
    isEarlyControl (.notesTagCount 7) = false ∧ noActive egEmptyState = true ∧
    handleRequest "t" egEmptyState (.notesTagCount 7) =
      (egEmptyState, some ⟨7, "control/error", .error "no active project"⟩) :=
  ⟨rfl, rfl, (noActiveProject_guard "t" egEmptyState (.notesTagCount 7)).1 rfl rfl⟩

/-- C6 counterexample: `control/change/project` on a name bound to no
project leaves the cursor naming a nonexistent project — the cursor
invariant fails in a reachable state. -/
theorem cursor_dangling_after_change :
    (runReqs "t" egEmptyState [.controlChangeProject 1 (some "ghost")]).activeProject =
      some "ghost" ∧
    dmem (runReqs "t" egEmptyState [.controlChangeProject 1 (some "ghost")]).projects
      "ghost" = false ∧
    cursorOk (runReqs "t" egEmptyState [.controlChangeProject 1 (some "ghost")]) = false :=
  ⟨rfl, rfl, rfl⟩

/-- C1: a `notes/set` in a session with a live active project stores and
returns a note whose `author` and `modifiedBy` are the session identity,
whatever author or modifier the client supplied. -/
theorem notesSet_stamps_identity (now : String) (st : ServerState) (id : Nat)
    (n : NoteInput) (pname : String) (proj : Project)
    (hA : st.activeProject = some pname) (hne : pname ≠ "")
    (hP : dget st.projects pname = some proj) :
    ∃ stored tc proj1,
      handleRequest now st (.notesSet id n) =
        (commitProj st pname proj1, some ⟨id, "notes/set", .noteSet stored tc⟩) ∧
      dget proj1.notes (n.location.uri, n.location.line) = some stored ∧
      stored.author = st.identity ∧ stored.modifiedBy = st.identity := by
  have hna := noActive_false_of hA hne hP
  refine ⟨serverNote st.identity now n,
    tagHistogram ((vals (dset proj.notes (n.location.uri, n.location.line) (serverNote st.identity now n))).map Note.text),
    { proj with notes := dset proj.notes (n.location.uri, n.location.line) (serverNote st.identity now n) },
    ?_, dget_dset_self _ _ _, rfl, rfl⟩
  simp [handleRequest, hna, hA, hP, handleActive, serverNote]

/-- Witness for C1: the client sends author `bogus`, the stored note says
`alice`. -/
theorem notesSet_stamps_identity_witness :
    egState.activeProject = some "p" ∧ ("p" : String) ≠ "" ∧
    dget egState.projects "p" = some egProject ∧
    ∃ stored tc proj1,
      handleRequest "2021" egState (.notesSet 3 egNoteInput) =
        (commitProj egState "p" proj1, some ⟨3, "notes/set", .noteSet stored tc⟩) ∧
      dget proj1.notes (egNoteInput.location.uri, egNoteInput.location.line) =
        some stored ∧
      stored.author = egState.identity ∧ stored.modifiedBy = egState.identity :=
  ⟨rfl, by decide, rfl,
   notesSet_stamps_identity "2021" egState 3 egNoteInput "p" egProject rfl (by decide) rfl⟩

/-- Every project-scoped handler either keeps the state or replaces the
active project's entry. -/
theorem handleActive_state (now : String) (st : ServerState) (pname : String)
    (proj : Project) (req : Request) :
    (handleActive now st pname proj req).1 = st ∨
    ∃ proj1, (handleActive now st pname proj req).1 = commitProj st pname proj1 := by
  cases req <;> simp only [handleActive] <;> (repeat' split) <;>
    first
      | exact Or.inl trivial
      | exact Or.inl rfl
      | exact Or.inr ⟨_, rfl⟩

/-- Replacing a project entry keeps the cursor invariant. -/
theorem cursorOk_dset (st : ServerState) (k : String) (v : Project)
    (h : cursorOk st = true) :
    cursorOk { st with projects := dset st.projects k v } = true := by
  cases hA : st.activeProject with
  | none => simp [cursorOk, hA]
  | some n =>
    have h' : dmem st.projects n = true := by simpa [cursorOk, hA] using h
    simp [cursorOk, hA, dmem_dset_of k v h']

/-- C6 (amended): the cursor invariant — unset or naming an existing
project — is preserved by every dispatched request except a
`control/change/project` naming an absent project, which leaves the cursor
dangling (the dispatcher thereafter treats the session as having no active
project); and `control/remove/project` on the cursor's own project unsets
the cursor while still answering the session with success. -/
theorem cursor_invariant_guarded (now : String) (st : ServerState) (req : Request) :
    (cursorOk st = true → changeGuard st req = true →
      cursorOk (handleRequest now st req).1 = true) ∧
    (∀ id pname, st.activeProject = some pname →
      (handleRequest now st (.controlRemoveProject id (some pname))).1.activeProject =
        none ∧
      (handleRequest now st (.controlRemoveProject id (some pname))).2 =
        some ⟨id, "control/remove/project", .empty⟩) := by
  constructor
  · intro h hg
    cases req
    case controlListProject id => simpa [handleRequest] using h
    case controlCreateProject id name r o =>
      simpa [handleRequest] using cursorOk_dset st name (freshProject r o) h
    case controlChangeProject id name =>
      cases name with
      | none => simp [handleRequest, cursorOk]
      | some n =>
        have hn : dmem st.projects n = true := by simpa [changeGuard] using hg
        simp [handleRequest, cursorOk, hn]
    case controlRemoveProject id name =>
      by_cases hEq : st.activeProject = name
      · simp [handleRequest, hEq, cursorOk]
      · cases hA : st.activeProject with
        | none => simp [handleRequest, hEq, cursorOk, hA]
        | some n =>
          have hn : dmem st.projects n = true := by simpa [cursorOk, hA] using h
          cases name with
          | none => simp [handleRequest, hEq, cursorOk, hA, hn]
          | some m =>
            have hnm : n ≠ m := by
              intro e
              apply hEq
              rw [hA, e]
            by_cases hm : dmem st.projects m = true
            · simp [handleRequest, hEq, cursorOk, hA, hm, hnm,
                dmem_ddel_ne st.projects m n hnm, hn]
            · simp [handleRequest, hEq, cursorOk, hA, hm, hnm, hn]
    case controlSubscribe id ch => simpa [handleRequest] using h
    case controlUnsubscribe id ch => simpa [handleRequest] using h
    case controlExit id => simpa [handleRequest] using h
    all_goals
      simp only [handleRequest]
      split
      · simpa using h
      · cases hA : st.activeProject with
        | none => simpa [hA] using h
        | some pname =>
          cases hP : dget st.projects pname with
          | none => simpa [hA, hP] using h
          | some proj =>
            simp only [hA, hP]
            rcases handleActive_state now st pname proj _ with hs | ⟨p1, hs⟩
            · rw [hs]
              exact h
            · rw [hs]
              exact cursorOk_dset st pname p1 h
  · intro id pname hA
    constructor
    · simp [handleRequest, hA]
    · simp [handleRequest]

/-- Witness for C6's amended theorem: removing the active project `p`
unsets the cursor and keeps the invariant. -/
theorem cursor_invariant_guarded_witness :
    cursorOk egState = true ∧
    changeGuard egState (.controlRemoveProject 4 (some "p")) = true ∧
    cursorOk (handleRequest "t" egState (.controlRemoveProject 4 (some "p"))).1 = true ∧
    egState.activeProject = some "p" ∧
    (handleRequest "t" egState (.controlRemoveProject 4 (some "p"))).1.activeProject =
      none ∧
    (handleRequest "t" egState (.controlRemoveProject 4 (some "p"))).2 =
      some ⟨4, "control/remove/project", .empty⟩ :=
  ⟨rfl, rfl,
   (cursor_invariant_guarded "t" egState (.controlRemoveProject 4 (some "p"))).1 rfl rfl,
   rfl,
   ((cursor_invariant_guarded "t" egState (.controlRemoveProject 4 (some "p"))).2 4 "p" rfl).1,
   ((cursor_invariant_guarded "t" egState (.controlRemoveProject 4 (some "p"))).2 4 "p" rfl).2⟩

/-- Re-committing the same project twice is one commit. -/
theorem commitProj_idem (st : ServerState) (pname : String) (p : Project) :
    commitProj (commitProj st pname p) pname p = commitProj st pname p := by
  simp [commitProj, dset_dset_self]

/-- A `notes/remove` whose key is absent answers success and re-commits the
project unchanged. -/
theorem notesRemove_noop (now : String) (st : ServerState) (id : Nat)
    (loc : Location) (pname : String) (proj : Project)
    (hA : st.activeProject = some pname) (hne : pname ≠ "")
    (hP : dget st.projects pname = some proj)
    (hget : dget proj.notes (loc.uri, loc.line) = none) :
    handleRequest now st (.notesRemove id loc) =
      (commitProj st pname proj,
       some ⟨id, "notes/remove",
         .removed loc (tagHistogram ((vals proj.notes).map Note.text))⟩) := by
  have hna := noActive_false_of hA hne hP
  simp [handleRequest, hna, hA, hP, handleActive, dmem, hget]

/-- C9: with a live active project, two consecutive `notes/remove` for the
same `(uri, line)` both answer with a `notes/remove` success (never
`control/error`); the first deletes the note when present, and the second
leaves the state — in particular the notes map — exactly unchanged. -/
theorem notesRemove_idempotent (now1 now2 : String) (st : ServerState)
    (id1 id2 : Nat) (loc : Location) (pname : String) (proj : Project)
    (hA : st.activeProject = some pname) (hne : pname ≠ "")
    (hP : dget st.projects pname = some proj)
    (hnd : (proj.notes.map Prod.fst).Nodup) :
    ∃ st1 tc1 tc2,
      handleRequest now1 st (.notesRemove id1 loc) =
        (st1, some ⟨id1, "notes/remove", .removed loc tc1⟩) ∧
      handleRequest now2 st1 (.notesRemove id2 loc) =
        (st1, some ⟨id2, "notes/remove", .removed loc tc2⟩) ∧
      ∃ proj1, dget st1.projects pname = some proj1 ∧
        dget proj1.notes (loc.uri, loc.line) = none := by
  have hna := noActive_false_of hA hne hP
  by_cases hk : dmem proj.notes (loc.uri, loc.line) = true
  · have hdel : dget (ddel proj.notes (loc.uri, loc.line)) (loc.uri, loc.line) = none :=
      dget_ddel_self proj.notes (loc.uri, loc.line) hnd
    have h2 := notesRemove_noop now2
      (commitProj st pname { proj with notes := ddel proj.notes (loc.uri, loc.line) })
      id2 loc pname { proj with notes := ddel proj.notes (loc.uri, loc.line) }
      hA hne (dget_dset_self _ _ _) hdel
    rw [commitProj_idem] at h2
    refine ⟨commitProj st pname { proj with notes := ddel proj.notes (loc.uri, loc.line) },
      tagHistogram ((vals (ddel proj.notes (loc.uri, loc.line))).map Note.text),
      tagHistogram ((vals (ddel proj.notes (loc.uri, loc.line))).map Note.text),
      ?_, h2, ?_⟩
    · simp [handleRequest, hna, hA, hP, handleActive, hk]
    · exact ⟨_, dget_dset_self _ _ _, hdel⟩
  · have hget : dget proj.notes (loc.uri, loc.line) = none := by
      cases hdg : dget proj.notes (loc.uri, loc.line) with
      | none => rfl
      | some v => exact absurd (by simp [dmem, hdg]) hk
    have h1 := notesRemove_noop now1 st id1 loc pname proj hA hne hP hget
    have h2 := notesRemove_noop now2 (commitProj st pname proj) id2 loc pname proj
      hA hne (dget_dset_self _ _ _) hget
    rw [commitProj_idem] at h2
    exact ⟨commitProj st pname proj,
      tagHistogram ((vals proj.notes).map Note.text),
      tagHistogram ((vals proj.notes).map Note.text), h1, h2,
      proj, dget_dset_self _ _ _, hget⟩

/-- Witness for C9 at the sample state: the note at line 10 is removed,
then removed again. -/
theorem notesRemove_idempotent_witness :
    egState.activeProject = some "p" ∧ ("p" : String) ≠ "" ∧
    dget egState.projects "p" = some egProject ∧
    (egProject.notes.map Prod.fst).Nodup ∧
    ∃ st1 tc1 tc2,
      handleRequest "t1" egState (.notesRemove 5 { uri := "file:///a.py", line := 10 }) =
        (st1, some ⟨5, "notes/remove", .removed { uri := "file:///a.py", line := 10 } tc1⟩) ∧
      handleRequest "t2" st1 (.notesRemove 6 { uri := "file:///a.py", line := 10 }) =
        (st1, some ⟨6, "notes/remove", .removed { uri := "file:///a.py", line := 10 } tc2⟩) ∧
      ∃ proj1, dget st1.projects "p" = some proj1 ∧
        dget proj1.notes (Location.uri { uri := "file:///a.py", line := 10 },
          Location.line { uri := "file:///a.py", line := 10 }) = none :=
  ⟨rfl, by decide, rfl, by decide,
   notesRemove_idempotent "t1" "t2" egState 5 6 { uri := "file:///a.py", line := 10 }
     "p" egProject rfl (by decide) rfl (by decide)⟩

/-! Edge-closure lemmas for C5. -/

/-- Out-edge closure is monotone under node insertion. -/
theorem nodeEdgesOk_dset (nodes : List (Nat × Node)) (k : Nat) (v : Node) (nd : Node)
    (h : nodeEdgesOk nodes nd = true) : nodeEdgesOk (dset nodes k v) nd = true := by
  rw [nodeEdgesOk, List.all_eq_true] at h ⊢
  intro x hx
  exact dmem_dset_of k v (h x hx)

/-- Inserting a node with no out-edges keeps a flow edge-closed. -/
theorem flowEdgesOk_insertLeaf (fl : Flow) (nid : Nat) (node2 : Node)
    (hfl : flowEdgesOk fl = true) (hout : node2.outEdges = []) :
    flowEdgesOk { fl with nodes := dset fl.nodes nid node2 } = true := by
  rw [flowEdgesOk, List.all_eq_true] at hfl ⊢
  intro kv hkv
  rcases mem_dset hkv with heq | hmem
  · subst heq
    simp [nodeEdgesOk, hout]
  · exact nodeEdgesOk_dset _ _ _ _ (hfl kv hmem)

/-- The `add/node`-with-parent shape keeps a flow edge-closed: the parent
gains an edge to the freshly inserted node, which itself has no out-edges. -/
theorem flowEdgesOk_addNode (fl : Flow) (p nid : Nat) (pn : Node) (node2 : Node)
    (hfl : flowEdgesOk fl = true) (hpn : dget fl.nodes p = some pn)
    (hout : node2.outEdges = []) :
    flowEdgesOk { fl with nodes := dset (dset fl.nodes p { pn with outEdges := pn.outEdges ++ [nid] }) nid node2 } = true := by
  rw [flowEdgesOk, List.all_eq_true] at hfl ⊢
  intro kv hkv
  rcases mem_dset hkv with heq | h1
  · subst heq
    simp [nodeEdgesOk, hout]
  · rcases mem_dset h1 with heq | h2
    · subst heq
      rw [nodeEdgesOk, List.all_eq_true]
      intro x hx
      simp only [List.mem_append, List.mem_singleton] at hx
      rcases hx with hx | hx
      · have hpo := hfl (p, pn) (dget_mem hpn)
        rw [nodeEdgesOk, List.all_eq_true] at hpo
        exact dmem_dset_of _ _ (dmem_dset_of _ _ (hpo x hx))
      · subst hx
        exact dmem_dset_self _ _ _
    · exact nodeEdgesOk_dset _ _ _ _ (nodeEdgesOk_dset _ _ _ _ (hfl kv h2))

/-- Replacing a node while keeping its out-edges keeps a flow edge-closed. -/
theorem flowEdgesOk_replaceKeepOut (fl : Flow) (nid : Nat) (old merged : Node)
    (hfl : flowEdgesOk fl = true) (hold : dget fl.nodes nid = some old)
    (hout : merged.outEdges = old.outEdges) :
    flowEdgesOk { fl with nodes := dset fl.nodes nid merged } = true := by
  rw [flowEdgesOk, List.all_eq_true] at hfl ⊢
  intro kv hkv
  rcases mem_dset hkv with heq | hmem
  · subst heq
    have hpo := hfl (nid, old) (dget_mem hold)
    rw [nodeEdgesOk, List.all_eq_true] at hpo ⊢
    intro x hx
    rw [hout] at hx
    exact dmem_dset_of _ _ (hpo x hx)
  · exact nodeEdgesOk_dset _ _ _ _ (hfl kv hmem)

/-- Removing a node referenced by no out-edge keeps a flow edge-closed. -/
theorem flowEdgesOk_removeUnref (fl : Flow) (nid : Nat)
    (hfl : flowEdgesOk fl = true)
    (href : ∀ kv ∈ fl.nodes, kv.2.outEdges.contains nid = false) :
    flowEdgesOk { fl with nodes := ddel fl.nodes nid } = true := by
  rw [flowEdgesOk, List.all_eq_true] at hfl ⊢
  intro kv hkv
  have hmem := mem_ddel hkv
  have hpo := hfl kv hmem
  rw [nodeEdgesOk, List.all_eq_true] at hpo ⊢
  intro x hx
  have hxne : x ≠ nid := by
    intro e
    subst e
    have hc := href kv hmem
    simp at hc
    exact hc hx
  rw [dmem_ddel_ne _ _ _ hxne]
  exact hpo x hx

/-- Committing a project with closed edges keeps the state invariant. -/
theorem edgeOk_commit (st : ServerState) (pname : String) (p1 : Project)
    (h : edgeOk st = true) (hp : projEdgesOk p1 = true) :
    edgeOk (commitProj st pname p1) = true := by
  rw [edgeOk] at h
  rw [edgeOk, commitProj]
  exact all_dset _ _ _ _ h hp

/-- C5 counterexample: the reachable state built by creating and selecting
project `p`, creating flow 1, and adding a node with `childId = 5` stores
out-edge 1→5 although no node 5 exists: the edge-closure invariant fails
(`flow/add/node` records `childId` without an existence check). -/
theorem edge_invariant_fails_childId :
    edgeOk (runReqs "t" egEmptyState egEdgeSeq) = false := by decide

/-- C5 (amended): out-edges created by the `parentId` mechanism of
`flow/add/node` and by `flow/fork/node` always point to a node of the same
flow, and every dispatched request preserves the edge-closure invariant,
provided `flow/add/node` carries no truthy `childId` (recorded unchecked by
the code), `flow/set/node` does not override `outEdges` (stored verbatim),
and `flow/remove/node` targets a node no out-edge references (removal does
not clean up edges). -/
theorem edge_invariant_guarded (now : String) (st : ServerState) (req : Request)
    (h : edgeOk st = true) (hs : stepSafe st req = true) :
    edgeOk (handleRequest now st req).1 = true := by
  cases req
  case controlListProject id => simpa [handleRequest] using h
  case controlCreateProject id name r o =>
    simp only [handleRequest]
    rw [edgeOk] at h ⊢
    exact all_dset _ _ _ _ h rfl
  case controlChangeProject id name => simpa [handleRequest, edgeOk] using h
  case controlRemoveProject id name =>
    cases name with
    | none => simpa [handleRequest, edgeOk] using h
    | some m =>
      by_cases hm : dmem st.projects m = true
      · rw [edgeOk] at h
        simp only [handleRequest, hm, if_pos]
        rw [edgeOk]
        exact all_ddel _ _ _ h
      · simpa [handleRequest, hm, edgeOk] using h
  case controlSubscribe id ch => simpa [handleRequest] using h
  case controlUnsubscribe id ch => simpa [handleRequest] using h
  case controlExit id => simpa [handleRequest] using h
  case notesSet id n =>
    simp only [handleRequest]
    split
    · simpa using h
    · cases hA : st.activeProject with
      | none => simpa [hA] using h
      | some pname =>
        cases hP : dget st.projects pname with
        | none => simpa [hA, hP] using h
        | some proj =>
          have hproj : projEdgesOk proj = true := dget_all (by rwa [edgeOk] at h) hP
          simp only [hA, hP, handleActive]
          exact edgeOk_commit st pname _ h hproj
  case notesRemove id loc =>
    simp only [handleRequest]
    split
    · simpa using h
    · cases hA : st.activeProject with
      | none => simpa [hA] using h
      | some pname =>
        cases hP : dget st.projects pname with
        | none => simpa [hA, hP] using h
        | some proj =>
          have hproj : projEdgesOk proj = true := dget_all (by rwa [edgeOk] at h) hP
          simp only [hA, hP, handleActive]
          split
          · exact edgeOk_commit st pname _ h hproj
          · exact edgeOk_commit st pname _ h hproj
  case flowCreate id name description createdDate =>
    simp only [handleRequest]
    split
    · simpa using h
    · cases hA : st.activeProject with
      | none => simpa [hA] using h
      | some pname =>
        cases hP : dget st.projects pname with
        | none => simpa [hA, hP] using h
        | some proj =>
          have hproj : projEdgesOk proj = true := dget_all (by rwa [edgeOk] at h) hP
          simp only [hA, hP, handleActive]
          refine edgeOk_commit st pname _ h ?_
          rw [projEdgesOk] at hproj ⊢
          exact all_dset _ _ _ _ hproj rfl
  case flowSetInfo id flowId name description modifiedDate =>
    simp only [handleRequest]
    split
    · simpa using h
    · cases hA : st.activeProject with
      | none => simpa [hA] using h
      | some pname =>
        cases hP : dget st.projects pname with
        | none => simpa [hA, hP] using h
        | some proj =>
          have hproj : projEdgesOk proj = true := dget_all (by rwa [edgeOk] at h) hP
          simp only [hA, hP, handleActive]
          (repeat' split) <;> try simpa using h
          all_goals refine edgeOk_commit st pname _ h ?_
          all_goals rw [projEdgesOk] at hproj ⊢
          all_goals
            first
              | exact hproj
              | (rename_i fl hfl
                 have hokfl : flowEdgesOk fl = true := dget_all hproj hfl
                 exact all_dset _ _ _ _ hproj hokfl)
  case flowRemove id flowId =>
    simp only [handleRequest]
    split
    · simpa using h
    · cases hA : st.activeProject with
      | none => simpa [hA] using h
      | some pname =>
        cases hP : dget st.projects pname with
        | none => simpa [hA, hP] using h
        | some proj =>
          have hproj : projEdgesOk proj = true := dget_all (by rwa [edgeOk] at h) hP
          simp only [hA, hP, handleActive]
          (repeat' split) <;> try simpa using h
          all_goals
            refine edgeOk_commit st pname _ h ?_
            rw [projEdgesOk] at hproj ⊢
            exact all_ddel _ _ _ hproj
  case flowSetNode id nodeId patch =>
    simp only [handleRequest]
    split
    · simpa using h
    · cases hA : st.activeProject with
      | none => simpa [hA] using h
      | some pname =>
        cases hP : dget st.projects pname with
        | none => simpa [hA, hP] using h
        | some proj =>
          have hproj : projEdgesOk proj = true := dget_all (by rwa [edgeOk] at h) hP
          have hout : patch.outEdges = none := by
            simpa [stepSafe, Option.isNone_iff_eq_none] using hs
          simp only [hA, hP, handleActive]
          cases nodeId with
          | none => exact h
          | some nid =>
            simp only [findFlowWithNode, Option.getD_some]
            cases hfind : proj.flows.find? (fun kv => dmem kv.2.nodes nid) with
            | none => exact h
            | some pr =>
              obtain ⟨fid, fl⟩ := pr
              have hflmem : (fid, fl) ∈ proj.flows := List.mem_of_find?_eq_some hfind
              have hok : flowEdgesOk fl = true := by
                rw [projEdgesOk, List.all_eq_true] at hproj
                exact hproj (fid, fl) hflmem
              simp only [Option.getD_some]
              cases hold : dget fl.nodes nid with
              | none => exact h
              | some old =>
                refine edgeOk_commit st pname _ h ?_
                rw [projEdgesOk] at hproj ⊢
                refine all_dset _ _ _ _ hproj ?_
                exact flowEdgesOk_replaceKeepOut fl _ old _ hok hold (by simp [hout])
  case flowRemoveNode id nodeId =>
    simp only [handleRequest]
    split
    · simpa using h
    · cases hA : st.activeProject with
      | none => simpa [hA] using h
      | some pname =>
        cases hP : dget st.projects pname with
        | none => simpa [hA, hP] using h
        | some proj =>
          have hproj : projEdgesOk proj = true := dget_all (by rwa [edgeOk] at h) hP
          simp only [hA, hP, handleActive]
          cases nodeId with
          | none => exact h
          | some nid =>
            simp only [findFlowWithNode]
            cases hfind : proj.flows.find? (fun kv => dmem kv.2.nodes nid) with
            | none => exact h
            | some pr =>
              obtain ⟨fid, fl⟩ := pr
              have hflmem : (fid, fl) ∈ proj.flows := List.mem_of_find?_eq_some hfind
              have hok : flowEdgesOk fl = true := by
                rw [projEdgesOk, List.all_eq_true] at hproj
                exact hproj (fid, fl) hflmem
              have href : ∀ kv ∈ fl.nodes, kv.2.outEdges.contains nid = false := by
                have hs1 := hs
                simp only [stepSafe, List.all_eq_true] at hs1
                have hp1 := hs1 (pname, proj) (dget_mem hP)
                have hf1 := hp1 (fid, fl) hflmem
                intro kv hkv
                simpa using hf1 kv hkv
              simp only [Option.getD_some]
              refine edgeOk_commit st pname _ h ?_
              rw [projEdgesOk] at hproj ⊢
              refine all_dset _ _ _ _ hproj ?_
              exact flowEdgesOk_removeUnref fl nid hok href
  case flowForkNode id loc parentId note color name =>
    simp only [handleRequest]
    split
    · simpa using h
    · cases hA : st.activeProject with
      | none => simpa [hA] using h
      | some pname =>
        cases hP : dget st.projects pname with
        | none => simpa [hA, hP] using h
        | some proj =>
          have hproj : projEdgesOk proj = true := dget_all (by rwa [edgeOk] at h) hP
          simp only [hA, hP, handleActive]
          cases parentId with
          | none => exact h
          | some p =>
            simp only [findFlowWithNode]
            cases hfind : proj.flows.find? (fun kv => dmem kv.2.nodes p) with
            | none => exact h
            | some pr =>
              obtain ⟨fid, fl⟩ := pr
              have hflmem : (fid, fl) ∈ proj.flows := List.mem_of_find?_eq_some hfind
              have hok : flowEdgesOk fl = true := by
                rw [projEdgesOk, List.all_eq_true] at hproj
                exact hproj (fid, fl) hflmem
              simp only [Option.getD_some]
              cases hnid : dget proj.nextNodeId fid with
              | none => exact h
              | some nid =>
                cases hpn : dget fl.nodes p with
                | none => exact edgeOk_commit st pname _ h hproj
                | some pn =>
                  refine edgeOk_commit st pname _ h ?_
                  rw [projEdgesOk] at hproj ⊢
                  refine all_dset _ _ _ _ hproj ?_
                  exact flowEdgesOk_addNode fl _ nid pn _ hok hpn rfl
  case flowAddNode id loc flowId note color name parentId childId =>
    simp only [handleRequest]
    split
    · simpa using h
    · cases hA : st.activeProject with
      | none => simpa [hA] using h
      | some pname =>
        cases hP : dget st.projects pname with
        | none => simpa [hA, hP] using h
        | some proj =>
          have hproj : projEdgesOk proj = true := dget_all (by rwa [edgeOk] at h) hP
          have hchild : truthyNat childId = false := by
            simpa [stepSafe] using hs
          simp only [hA, hP, handleActive, hchild, Bool.false_eq_true, if_false]
          cases hfid : (if truthyNat flowId = true then flowId else firstFlowId proj.flows) with
          | none => exact h
          | some fid =>
            dsimp only
            by_cases hf0 : fid = 0
            · subst hf0
              exact h
            · rw [if_neg hf0]
              cases hnid : dget proj.nextNodeId fid with
              | none => exact h
              | some nid =>
                dsimp only
                cases hfl : dget proj.flows fid with
                | none => exact edgeOk_commit st pname _ h hproj
                | some fl =>
                  dsimp only
                  have hok : flowEdgesOk fl = true := dget_all hproj hfl
                  by_cases hpt : truthyNat parentId = true
                  · rw [if_pos hpt]
                    cases hpn : dget fl.nodes (parentId.getD 0) with
                    | none =>
                      refine edgeOk_commit st pname _ h ?_
                      rw [projEdgesOk] at hproj ⊢
                      refine all_dset _ _ _ _ hproj ?_
                      exact flowEdgesOk_insertLeaf fl nid _ hok rfl
                    | some pn =>
                      refine edgeOk_commit st pname _ h ?_
                      rw [projEdgesOk] at hproj ⊢
                      refine all_dset _ _ _ _ hproj ?_
                      exact flowEdgesOk_addNode fl _ nid pn _ hok hpn rfl
                  · rw [if_neg hpt]
                    refine edgeOk_commit st pname _ h ?_
                    rw [projEdgesOk] at hproj ⊢
                    refine all_dset _ _ _ _ hproj ?_
                    exact flowEdgesOk_insertLeaf fl nid _ hok rfl
  all_goals
    simp only [handleRequest]
    split
    · simpa using h
    · cases hA : st.activeProject with
      | none => simpa [hA] using h
      | some pname =>
        cases hP : dget st.projects pname with
        | none => simpa [hA, hP] using h
        | some proj =>
          simp only [hA, hP, handleActive]
          (repeat' split) <;> simpa using h

/-- Witness for C5's amended theorem: a safe `flow/remove/node` on a
reachable two-node state keeps the invariant. -/
theorem edge_invariant_guarded_witness :
    edgeOk egState = true ∧
    stepSafe egState (.flowRemoveNode 9 (some 1)) = true ∧
    edgeOk (handleRequest "t" egState (.flowRemoveNode 9 (some 1))).1 = true :=
  ⟨rfl, rfl,
   edge_invariant_guarded "t" egState (.flowRemoveNode 9 (some 1)) rfl rfl⟩

/-! Histogram lemmas for C7. -/

theorem dget_append_single (acc : List (String × Nat)) (u : String) (c : Nat)
    (t : String) :
    dget (acc ++ [(u, c)]) t =
      match dget acc t with
      | some v => some v
      | none => if u = t then some c else none := by
  induction acc with
  | nil => simp [dget]
  | cons hd tl ih =>
    obtain ⟨k', v'⟩ := hd
    by_cases hk : k' = t
    · simp [dget, hk]
    · simp [dget, hk, ih]

theorem dget_bumpTags (acc : List (String × Nat)) (u t : String) :
    dget (bumpTags acc u) t =
      if u = t then
        match dget acc t with
        | some c => some (c + 1)
        | none => some 1
      else dget acc t := by
  unfold bumpTags
  cases hu : dget acc u with
  | some c =>
    by_cases ht : u = t
    · subst ht
      rw [dget_dset_self]
      simp [hu]
    · rw [dget_dset_ne _ _ _ _ (fun e => ht e.symm)]
      simp [ht]
  | none =>
    rw [dget_append_single]
    by_cases ht : u = t
    · subst ht
      simp [hu]
    · cases h2 : dget acc t <;> simp [ht, h2]

theorem count_foldl_bumpTags (ts : List String) (acc : List (String × Nat))
    (t : String) :
    dget (ts.foldl bumpTags acc) t =
      match dget acc t with
      | some c => some (c + ts.count t)
      | none => if 0 < ts.count t then some (ts.count t) else none := by
  induction ts generalizing acc with
  | nil =>
    simp only [List.foldl_nil, List.count_nil]
    cases dget acc t <;> simp
  | cons u rest ih =>
    rw [List.foldl_cons, ih, dget_bumpTags]
    by_cases ht : u = t
    · subst ht
      rw [if_pos rfl, List.count_cons_self]
      cases h2 : dget acc u with
      | some c =>
        simp only [h2]
        congr 1
        omega
      | none =>
        simp only [h2]
        rw [if_pos (Nat.succ_pos _)]
        congr 1
        omega
    · rw [if_neg ht, List.count_cons_of_ne (fun e => ht e.symm)]

theorem dget_tagHistogram_aux (texts : List String) (acc : List (String × Nat))
    (t : String) :
    dget (texts.foldl (fun a s => (extractHashtags s).foldl bumpTags a) acc) t =
      match dget acc t with
      | some c => some (c + taggedCount texts t)
      | none =>
        if 0 < taggedCount texts t then some (taggedCount texts t) else none := by
  induction texts generalizing acc with
  | nil =>
    simp only [List.foldl_nil, taggedCount, List.countP_nil]
    cases dget acc t <;> simp
  | cons s rest ih =>
    rw [List.foldl_cons, ih, count_foldl_bumpTags]
    have hcnt : (extractHashtags s).count t =
        if (extractHashtags s).contains t then 1 else 0 := by
      rw [extractHashtags, List.count_dedup]
      by_cases hm : t ∈ findTags s.data
      · simp [hm, extractHashtags]
      · simp [hm, extractHashtags]
    have htc : taggedCount (s :: rest) t =
        taggedCount rest t + (extractHashtags s).count t := by
      rw [taggedCount, List.countP_cons, taggedCount, hcnt]
    cases h2 : dget acc t with
    | some c =>
      simp only [h2]
      congr 1
      omega
    | none =>
      simp only [h2]
      rw [hcnt, htc, hcnt]
      by_cases hc : (extractHashtags s).contains t = true
      · rw [if_pos hc, if_pos Nat.one_pos]
        dsimp only
        have h4 : 0 < taggedCount rest t + 1 := Nat.succ_pos _
        rw [if_pos h4]
        congr 1
        omega
      · rw [if_neg hc, if_neg (Nat.lt_irrefl 0)]
        simp

theorem dget_tagHistogram (texts : List String) (t : String) :
    dget (tagHistogram texts) t =
      if 0 < taggedCount texts t then some (taggedCount texts t) else none := by
  have h := dget_tagHistogram_aux texts [] t
  rw [tagHistogram]
  rw [show (dget ([] : List (String × Nat)) t) = none from rfl] at h
  exact h

/-- C7 counterexample: with one live note `"x #Alpha"`, the dispatcher
reports the tag `"Alpha"` exactly as written, while the claim's lowercasing
law demands `"alpha"`. -/
theorem tagCount_not_lowercased :
    (handleRequest "t" egStateUpper (.notesTagCount 1)).2 =
      some ⟨1, "notes/tag/count", .tags [("Alpha", 1)]⟩ ∧
    tagHistogramLowerSpec ["x #Alpha"] = [("alpha", 1)] ∧
    (("Alpha", 1) : String × Nat) ≠ ("alpha", 1) :=
  ⟨rfl, rfl, by decide⟩

/-- C7 (amended): for a live active project, `notes/tag/count` reports
exactly the tags extracted by the regex `#(\w+)` from the live notes,
case-preserved rather than lowercased, and each tag's count is the number
of live notes whose text carries it. -/
theorem tagCount_characterization (now : String) (st : ServerState) (id : Nat)
    (pname : String) (proj : Project)
    (hA : st.activeProject = some pname) (hne : pname ≠ "")
    (hP : dget st.projects pname = some proj) :
    ∃ tl,
      handleRequest now st (.notesTagCount id) =
        (st, some ⟨id, "notes/tag/count", .tags tl⟩) ∧
      ∀ t, dget tl t =
        if 0 < taggedCount ((vals proj.notes).map Note.text) t
        then some (taggedCount ((vals proj.notes).map Note.text) t) else none := by
  have hna := noActive_false_of hA hne hP
  refine ⟨tagHistogram ((vals proj.notes).map Note.text), ?_,
    fun t => dget_tagHistogram _ t⟩
  simp [handleRequest, hna, hA, hP, handleActive]

/-- Witness for C7's amended theorem: the sample note carries `alpha` and
`beta` once each. -/
theorem tagCount_characterization_witness :
    egState.activeProject = some "p" ∧ ("p" : String) ≠ "" ∧
    dget egState.projects "p" = some egProject ∧
    ∃ tl,
      handleRequest "t" egState (.notesTagCount 8) =
        (egState, some ⟨8, "notes/tag/count", .tags tl⟩) ∧
      ∀ t, dget tl t =
        if 0 < taggedCount ((vals egProject.notes).map Note.text) t
        then some (taggedCount ((vals egProject.notes).map Note.text) t) else none :=
  ⟨rfl, by decide, rfl,
   tagCount_characterization "t" egState 8 "p" egProject rfl (by decide) rfl⟩

/-- C8 counterexample: on three notes, `page = {index: 1, size: 2}` makes
the code return `notes[1:3]` (offset slicing) while the claim's index-th
page is `notes[2:4]`; and a descending `createdDate` order is ignored by
the code while the claim demands sorting. -/
theorem searchColumns_mismatch :
    (handleRequest "t" egState3
      (.notesSearchColumns 1 none none (some { index := some 1, size := some 2 }))).2 =
      some ⟨1, "notes/search/columns", .notesPage [egNote2, egNote3] 1⟩ ∧
    notesSearchColumnsSpec [egNote1, egNote2, egNote3] none none
      (some { index := some 1, size := some 2 }) = ([egNote3], 1) ∧
    ([egNote2, egNote3] : List Note) ≠ [egNote3] ∧
    (handleRequest "t" egState3
      (.notesSearchColumns 2 none (some (.createdDate, .descending)) none)).2 =
      some ⟨2, "notes/search/columns", .notesPage [egNote1, egNote2, egNote3] 0⟩ ∧
    notesSearchColumnsSpec [egNote1, egNote2, egNote3] none
      (some (.createdDate, .descending)) none = ([egNote3, egNote2, egNote1], 0) ∧
    ([egNote1, egNote2, egNote3] : List Note) ≠ [egNote3, egNote2, egNote1] :=
  ⟨rfl, rfl, by decide, rfl, rfl, by decide⟩

/-- C8 (amended): `notes/search/columns` filters by author equality when
the filter names a nonempty author and then slices `notes[idx : idx+size]`
— an offset window, not the index-th page — with
`maxPage = max(0, (total-1) // size)`; any `order` parameter is ignored
(the result is identical for every order argument); and the code's
`maxPage` agrees with the spec's `max(0, ceil(total/size) - 1)` formula for
every total and size. -/
theorem searchColumns_code_behavior (now : String) (st : ServerState) (id : Nat)
    (a : Option String) (ord : Option (OrderCol × OrderDir)) (pg : Option Page)
    (pname : String) (proj : Project)
    (hA : st.activeProject = some pname) (hne : pname ≠ "")
    (hP : dget st.projects pname = some proj) :
    (handleRequest now st (.notesSearchColumns id a ord pg) =
      (st, some ⟨id, "notes/search/columns",
        .notesPage
          (slicePage
            (match a with
             | some x => if x = "" then vals proj.notes
               else (vals proj.notes).filter (fun n => n.author = x)
             | none => vals proj.notes) (pageIndex pg) (pageSize pg))
          (maxPageOf
            (match a with
             | some x => if x = "" then vals proj.notes
               else (vals proj.notes).filter (fun n => n.author = x)
             | none => vals proj.notes).length (pageSize pg))⟩)) ∧
    (∀ ord2, handleRequest now st (.notesSearchColumns id a ord pg) =
      handleRequest now st (.notesSearchColumns id a ord2 pg)) ∧
    (∀ total size, maxPageOf total size = specMaxPage total size) := by
  have hna := noActive_false_of hA hne hP
  refine ⟨?_, fun ord2 => rfl, ?_⟩
  · simp [handleRequest, hna, hA, hP, handleActive]
  · intro total size
    rw [maxPageOf, specMaxPage]
    by_cases hsz : size = 0
    · simp [hsz]
    · have h1 : 0 < size := Nat.pos_of_ne_zero hsz
      rw [if_pos h1, if_neg hsz]
      by_cases ht : total = 0
      · subst ht
        rw [if_pos rfl]
        rw [Nat.div_eq_of_lt (by omega)]
      · rw [if_neg ht]
        have h2 : total + size - 1 = (total - 1) + size := by omega
        rw [h2, Nat.add_div_right _ h1, Nat.succ_sub_one]

/-- Witness for C8's amended theorem at the three-note state with an author
filter and a page. -/
theorem searchColumns_code_behavior_witness :
    egState3.activeProject = some "p" ∧ ("p" : String) ≠ "" ∧
    dget egState3.projects "p" = some egProject3 ∧
    ((handleRequest "t" egState3 (.notesSearchColumns 3 (some "alice")
        (some (.modifiedDate, .ascending)) (some { index := some 0, size := some 2 }))).2 =
      some ⟨3, "notes/search/columns",
        .notesPage (slicePage ((vals egProject3.notes).filter (fun n => n.author = "alice")) 0 2)
          (maxPageOf ((vals egProject3.notes).filter (fun n => n.author = "alice")).length 2)⟩) ∧
    maxPageOf 3 2 = specMaxPage 3 2 := by
  have h := searchColumns_code_behavior "t" egState3 3 (some "alice")
    (some (.modifiedDate, .ascending)) (some { index := some 0, size := some 2 })
    "p" egProject3 rfl (by decide) rfl
  refine ⟨rfl, by decide, rfl, ?_, h.2.2 3 2⟩
  rw [h.1]
  rfl

/-! Framing and block-stream lemmas for C2/C3. -/

theorem leBytes_length (k x : Nat) : (leBytes k x).length = k := by
  induction k generalizing x with
  | zero => rfl
  | succ k ih => simp [leBytes, ih]

theorem decPad_length (k n : Nat) : (decPad k n).length = k := by
  induction k generalizing n with
  | zero => rfl
  | succ k ih => simp [decPad, ih]

theorem packPlaintextBytes_length (payload : List Nat) :
    (packPlaintextBytes payload).length = 10 + payload.length := by
  simp [packPlaintextBytes, decPad_length]

theorem parseDec_decPad (k n : Nat) : parseDec (decPad k n) = n % 10 ^ k := by
  induction k generalizing n with
  | zero => simp [decPad, parseDec, Nat.mod_one]
  | succ k ih =>
    have h0 : parseDec (decPad k (n / 10) ++ [48 + n % 10]) =
        parseDec (decPad k (n / 10)) * 10 + (48 + n % 10 - 48) := by
      rw [parseDec, parseDec, List.foldl_append]
      simp
    rw [decPad, h0, ih]
    have h1 : 48 + n % 10 - 48 = n % 10 := by omega
    rw [h1, pow_succ]
    have h3 : n / 10 % 10 ^ k = n % (10 * 10 ^ k) / 10 :=
      (Nat.mod_mul_right_div_self n 10 (10 ^ k)).symm
    have h4 : (10 : Nat) ^ k * 10 = 10 * 10 ^ k := by ring
    have h5 : n % 10 = n % (10 * 10 ^ k) % 10 :=
      (Nat.mod_mod_of_dvd n ⟨10 ^ k, rfl⟩).symm
    rw [h3, h4, h5]
    generalize n % (10 * 10 ^ k) = m
    omega

theorem parseU16_block (x : Nat) (rest : List Nat) (h : x < 65536) :
    parseU16 ((leBytes 2 x ++ rest).take 2) = x := by
  show parseU16 ((x % 256 :: (x / 256) % 256 :: rest).take 2) = x
  simp only [List.take, parseU16]
  omega

/-- The header parse of one sealed block: the framed region is recovered
from the 512-byte layout. -/
theorem recvRaw_sealed (a b r3 r4 s2 c : Nat) (framed : List Nat)
    (pad : Nat → Nat) (hlen : framed.length ≤ 510) :
    recvRaw ⟨b, r3, a, r4, s2, c⟩
      (cryptoBox (leBytes 2 framed.length ++ framed ++ (List.range (510 - framed.length)).map pad)
        (counterNonce c) b a) =
      some (⟨b, r3, a, r4, s2, c + 1⟩, framed) := by
  have hopen : cryptoBoxOpen
      (cryptoBox (leBytes 2 framed.length ++ framed ++ (List.range (510 - framed.length)).map pad)
        (counterNonce c) b a) (counterNonce c) a b =
      some (leBytes 2 framed.length ++ framed ++ (List.range (510 - framed.length)).map pad) := by
    rw [cryptoBox, cryptoBoxOpen]
    exact if_pos ⟨Nat.mul_comm a b, rfl⟩
  rw [recvRaw]
  simp only [hopen]
  have hassoc : leBytes 2 framed.length ++ framed ++ (List.range (510 - framed.length)).map pad =
      leBytes 2 framed.length ++ (framed ++ (List.range (510 - framed.length)).map pad) :=
    List.append_assoc _ _ _
  rw [hassoc, parseU16_block _ _ (by omega), List.drop_left' (leBytes_length 2 _),
    List.take_append_eq_append_take, List.take_of_length_le (Nat.le_refl _),
    Nat.sub_self, List.take_zero, List.append_nil]

/-- C2: a JSON message whose framed encoding fits one block (at most 510
bytes, the 512-byte boundary case included) round-trips through
`EncryptedChannel.send` and `recv` between peered channels with matching
keys and equal counters, and both counters advance by exactly 1. -/
theorem channel_roundtrip_single (a b c r1 r2 r3 r4 s1 s2 : Nat)
    (payload : List Nat) (pad : Nat → Nat) (hlen : payload.length ≤ 500) :
    ∃ chS1 ct chR1,
      sendMsg ⟨r1, a, r2, b, c, s1⟩ payload pad = .ok (chS1, ct) ∧
      recvMsg ⟨b, r3, a, r4, s2, c⟩ [ct] = some (chR1, payload) ∧
      chS1.sendNonce = c + 1 ∧ chR1.recvNonce = c + 1 := by
  have hfl := packPlaintextBytes_length payload
  refine ⟨⟨r1, a, r2, b, c + 1, s1⟩,
    cryptoBox (leBytes 2 (packPlaintextBytes payload).length ++ packPlaintextBytes payload ++
      (List.range (510 - (packPlaintextBytes payload).length)).map pad)
      (counterNonce c) b a,
    ⟨b, r3, a, r4, s2, c + 1⟩, ?_, ?_, rfl, rfl⟩
  · simp only [sendMsg]
    rw [if_neg (by omega)]
    rfl
  · rw [recvMsg]
    simp only [recvRaw_sealed a b r3 r4 s2 c (packPlaintextBytes payload) pad (by omega)]
    have hh : (packPlaintextBytes payload).take 10 = decPad 10 payload.length := by
      rw [packPlaintextBytes]
      exact List.take_left' (decPad_length 10 _)
    have hd : (packPlaintextBytes payload).drop 10 = payload := by
      rw [packPlaintextBytes]
      exact List.drop_left' (decPad_length 10 _)
    have hj : parseDec (decPad 10 payload.length) = payload.length := by
      rw [parseDec_decPad]
      exact Nat.mod_eq_of_lt (by omega)
    rw [hh, hd, hj, List.take_of_length_le (Nat.le_refl _), recvLoop,
      if_pos (Nat.le_refl _), List.take_of_length_le (Nat.le_refl _)]

/-- Witness for C2 at the one-block boundary: a 500-byte payload, whose
framed encoding is exactly 510 bytes (2 + 510 = 512), round-trips. -/
theorem channel_roundtrip_single_witness :
    (List.replicate 500 97 : List Nat).length ≤ 500 ∧
    ∃ chS1 ct chR1,
      sendMsg ⟨0, 2, 0, 3, 7, 9⟩ (List.replicate 500 97) (fun _ => 0) = .ok (chS1, ct) ∧
      recvMsg ⟨3, 0, 2, 0, 4, 7⟩ [ct] = some (chR1, List.replicate 500 97) ∧
      chS1.sendNonce = 7 + 1 ∧ chR1.recvNonce = 7 + 1 :=
  ⟨le_of_eq (List.length_replicate 500 97), channel_roundtrip_single 2 3 7 0 0 0 0 9 4
    (List.replicate 500 97) (fun _ => 0) (le_of_eq (List.length_replicate 500 97))⟩

set_option maxRecDepth 8192 in
/-- C3 counterexample: for a message whose framed encoding spans two blocks
(501 payload bytes, 511 framed bytes), `EncryptedChannel.send` raises
`Message too large` — the repository's sender cannot send it at all. -/
theorem send_refuses_twoBlocks :
    510 < (packPlaintextBytes (List.replicate 501 97)).length ∧
    sendMsg ⟨0, 2, 0, 3, 1, 1⟩ (List.replicate 501 97) (fun _ => 0) =
      .error "Message too large" :=
  ⟨by rw [packPlaintextBytes_length, List.length_replicate]; omega, rfl⟩

/-- C3 (amended): the repository's `send` refuses any message whose framed
encoding exceeds 510 bytes, but `recv` does reassemble multi-block
messages: a message split per the spec's multi-block rule into exactly two
sealed blocks is reassembled by the receiver into the original message,
each block advancing the counters. -/
theorem channel_roundtrip_twoBlocks (a b c r1 r2 r3 r4 s1 s2 : Nat)
    (payload : List Nat) (pad : Nat → Nat)
    (hlo : 500 < payload.length) (hhi : payload.length ≤ 1010) :
    ∃ chS1 cts chR1,
      sendMulti ⟨r1, a, r2, b, c, s1⟩ payload pad = (chS1, cts) ∧
      cts.length = 2 ∧
      recvMsg ⟨b, r3, a, r4, s2, c⟩ cts = some (chR1, payload) ∧
      chS1.sendNonce = c + 2 ∧ chR1.recvNonce = c + 2 := by
  have hfl := packPlaintextBytes_length payload
  have hc1len : ((packPlaintextBytes payload).take 510).length = 510 := by
    rw [List.length_take]
    omega
  have hc2len : ((packPlaintextBytes payload).drop 510).length =
      payload.length - 500 := by
    rw [List.length_drop]
    omega
  have hch : chunks510 (packPlaintextBytes payload) =
      [(packPlaintextBytes payload).take 510, (packPlaintextBytes payload).drop 510] := by
    rw [chunks510, if_neg (by omega), chunks510, if_pos (by rw [List.length_drop]; omega)]
  refine ⟨⟨r1, a, r2, b, c + 2, s1⟩,
    [cryptoBox (leBytes 2 ((packPlaintextBytes payload).take 510).length ++ (packPlaintextBytes payload).take 510 ++ (List.range (510 - ((packPlaintextBytes payload).take 510).length)).map pad) (counterNonce c) b a,
     cryptoBox (leBytes 2 ((packPlaintextBytes payload).drop 510).length ++ (packPlaintextBytes payload).drop 510 ++ (List.range (510 - ((packPlaintextBytes payload).drop 510).length)).map pad) (counterNonce (c + 1)) b a],
    ⟨b, r3, a, r4, s2, c + 2⟩, ?_, ?_, ?_, rfl, rfl⟩
  · rw [sendMulti, hch]
    rfl
  · rfl
  · have hraw1 := recvRaw_sealed a b r3 r4 s2 c
      ((packPlaintextBytes payload).take 510) pad (by omega)
    have hraw2 := recvRaw_sealed a b r3 r4 s2 (c + 1)
      ((packPlaintextBytes payload).drop 510) pad (by omega)
    rw [recvMsg]
    simp only [hraw1]
    have hh : ((packPlaintextBytes payload).take 510).take 10 =
        decPad 10 payload.length := by
      rw [List.take_take, Nat.min_def, if_pos (by omega), packPlaintextBytes]
      exact List.take_left' (decPad_length 10 _)
    have hd : ((packPlaintextBytes payload).take 510).drop 10 = payload.take 500 := by
      rw [packPlaintextBytes, List.take_append_eq_append_take,
        List.take_of_length_le (by rw [decPad_length]; omega), decPad_length]
      exact List.drop_left' (decPad_length 10 _) ▸
        (by rw [List.drop_left' (decPad_length 10 _)] : (decPad 10 payload.length ++ payload.take (510 - 10)).drop 10 = payload.take (510 - 10))
    have hj : parseDec (decPad 10 payload.length) = payload.length := by
      rw [parseDec_decPad]
      exact Nat.mod_eq_of_lt (by omega)
    have hacc : (payload.take 500).take payload.length = payload.take 500 := by
      exact List.take_of_length_le (by rw [List.length_take]; omega)
    rw [hh, hd, hj, hacc, recvLoop, if_neg (by rw [List.length_take]; omega)]
    simp only [hraw2]
    have hc2 : (packPlaintextBytes payload).drop 510 = payload.drop 500 := by
      rw [packPlaintextBytes, List.drop_append_eq_append_drop,
        List.drop_eq_nil_of_le (by rw [decPad_length]; omega), decPad_length,
        List.nil_append]
    rw [hc2, List.take_append_drop, recvLoop, if_pos (Nat.le_refl _),
      List.take_of_length_le (Nat.le_refl _)]

/-- Witness for C3's amended theorem: a 501-byte payload spans exactly two
blocks and is reassembled. -/
theorem channel_roundtrip_twoBlocks_witness :
    500 < (List.replicate 501 97 : List Nat).length ∧
    (List.replicate 501 97 : List Nat).length ≤ 1010 ∧
    ∃ chS1 cts chR1,
      sendMulti ⟨0, 2, 0, 3, 1, 9⟩ (List.replicate 501 97) (fun _ => 0) = (chS1, cts) ∧
      cts.length = 2 ∧
      recvMsg ⟨3, 0, 2, 0, 4, 1⟩ cts = some (chR1, List.replicate 501 97) ∧
      chS1.sendNonce = 1 + 2 ∧ chR1.recvNonce = 1 + 2 :=
  ⟨by rw [List.length_replicate]; omega, by rw [List.length_replicate]; omega,
   channel_roundtrip_twoBlocks 2 3 1 0 0 0 0 9 4 (List.replicate 501 97) (fun _ => 0)
     (by rw [List.length_replicate]; omega) (by rw [List.length_replicate]; omega)⟩

end Numscull
